import Mathlib

/-!
Verification of the LLMcodeEval evaluation pipeline
(`backend/evaluators/{correctnessEvaluator, complexityEvaluator,
styleEvaluator, securityEvaluator, reportGenerator}.py`).

The Python code computes scores with IEEE-754 double-precision arithmetic
(`/`, `*`, `+`, `round`, `int` on floats).  We model a double exactly as a
dyadic rational `m * 2^e` (unbounded exponent: all quantities in this code
base stay far away from overflow and subnormal territory) and model every
float operation as the exact operation followed by rounding of the result
to 53 significant bits, round-to-nearest ties-to-even, which is exactly
what IEEE-754 binary64 does in the absence of overflow/underflow.  All
definitions are executable over `Int`/`Nat` so that concrete runs of the
evaluators can be checked by `decide`; the rational value of a dyadic is
used only in proofs.
-/

/-- Fuel-based binary logarithm (structural recursion so that the kernel
can evaluate it; `Nat.log2` is well-founded and does not reduce). -/
def natLog2F : ℕ → ℕ → ℕ
  | 0, _ => 0
  | fuel + 1, n => if n ≤ 1 then 0 else natLog2F fuel (n / 2) + 1

/-- `natLog2 n` is `⌊log₂ n⌋` for `n ≥ 1` (and `0` for `n = 0`). -/
def natLog2 (n : ℕ) : ℕ := natLog2F n n

/-- `2^k` as an integer. -/
def ipow2 (k : ℕ) : ℤ := ((2 ^ k : ℕ) : ℤ)

/-- Round the rational `n / d` (`d > 0`) to the nearest integer,
ties to even — the rounding used by IEEE-754 and by Python `round`. -/
def roundNEQ (n d : ℤ) : ℤ :=
  let q := Int.fdiv n d
  let r := n - q * d
  if 2 * r < d then q
  else if d < 2 * r then q + 1
  else if q % 2 = 0 then q else q + 1

/-- A dyadic rational `m * 2^e`, the exact value of an IEEE double. -/
structure Dy where
  m : ℤ
  e : ℤ
deriving DecidableEq

/-- The rational value of a dyadic. -/
def Dy.val (x : Dy) : ℚ := (x.m : ℚ) * (2 : ℚ) ^ x.e

/-- `⌊log₂ (n/d)⌋` for `n, d ≥ 1`. -/
def qlog2pos (n d : ℤ) : ℤ :=
  let c : ℤ := (natLog2 n.toNat : ℤ) - (natLog2 d.toNat : ℤ)
  if 0 ≤ c then (if d * ipow2 c.toNat ≤ n then c else c - 1)
  else (if d ≤ n * ipow2 (-c).toNat then c else c - 1)

/-- Round `n / d` (`n, d ≥ 1`) to 53 significant bits: the exact result of
an IEEE double division of positive integers. -/
def divRndPos (n d : ℤ) : Dy :=
  let e := qlog2pos n d
  let s := 52 - e
  if 0 ≤ s then ⟨roundNEQ (n * ipow2 s.toNat) d, e - 52⟩
  else ⟨roundNEQ n (d * ipow2 (-s).toNat), e - 52⟩

/-- IEEE double division `n / d` of integers, `d ≠ 0` (Python `n / d`). -/
def divRnd (n d : ℤ) : Dy :=
  let dd := if d < 0 then -d else d
  let nn := if d < 0 then -n else n
  if 0 < nn then divRndPos nn dd
  else if nn < 0 then ⟨-(divRndPos (-nn) dd).m, (divRndPos (-nn) dd).e⟩
  else ⟨0, 0⟩

/-- Round a dyadic to 53 significant bits (nearest, ties to even):
the rounding step at the end of every IEEE double operation. -/
def round53 (x : Dy) : Dy :=
  let L := natLog2 x.m.natAbs
  if L ≤ 52 then x
  else ⟨roundNEQ x.m (ipow2 (L - 52)), x.e + (L - 52)⟩

/-- IEEE double multiplication. -/
def dmul (x y : Dy) : Dy := round53 ⟨x.m * y.m, x.e + y.e⟩

/-- Exact (unrounded) sum of two dyadics, on the common exponent. -/
def addExact (x y : Dy) : Dy :=
  if x.e ≤ y.e then ⟨x.m + y.m * ipow2 (y.e - x.e).toNat, x.e⟩
  else ⟨x.m * ipow2 (x.e - y.e).toNat + y.m, y.e⟩

/-- IEEE double addition. -/
def dadd (x y : Dy) : Dy := round53 (addExact x y)

/-- Negation (exact). -/
def dneg (x : Dy) : Dy := ⟨-x.m, x.e⟩

/-- IEEE double subtraction. -/
def dsub (x y : Dy) : Dy := round53 (addExact x (dneg y))

/-- Absolute value (exact), Python `abs` on a float. -/
def dabs (x : Dy) : Dy := ⟨if x.m < 0 then -x.m else x.m, x.e⟩

/-- Conversion of a Python `int` to a double (`float(n)`, also the implicit
conversion in mixed `int`/`float` arithmetic). -/
def dofInt (n : ℤ) : Dy := round53 ⟨n, 0⟩

/-- `x < y` on doubles, via the sign of the exact difference. -/
def dlt (x y : Dy) : Bool := (addExact x (dneg y)).m < 0

/-- `x ≤ y` on doubles. -/
def dle (x y : Dy) : Bool := (addExact x (dneg y)).m ≤ 0

/-- Python `int(x)` on a float: truncation toward zero. -/
def dtruncInt (x : Dy) : ℤ :=
  if 0 ≤ x.e then x.m * ipow2 x.e.toNat else Int.tdiv x.m (ipow2 (-x.e).toNat)

/-- Python `round(x)` on a float: nearest integer, ties to even. -/
def droundInt (x : Dy) : ℤ :=
  if 0 ≤ x.e then x.m * ipow2 x.e.toNat else roundNEQ x.m (ipow2 (-x.e).toNat)

/-- The double-precision literal `0.5` of the source. -/
def dbl05 : Dy := divRnd 1 2

/-- The double-precision literal `0.2` of the source. -/
def dbl02 : Dy := divRnd 1 5

/-- The double-precision literal `0.15` of the source. -/
def dbl015 : Dy := divRnd 3 20

/-- The double-precision literal `1e-6` of the source. -/
def dbl1em6 : Dy := divRnd 1 1000000

/-- Relative-error unit of 53-bit rounding: `2^-53`. -/
def eps53 : ℚ := 1 / 2 ^ (53 : ℕ)

-- ---------------------------------------------------------------------
-- Facts about the double model
-- ---------------------------------------------------------------------

theorem natLog2F_spec : ∀ (fuel n : ℕ), 1 ≤ n → n ≤ fuel →
    2 ^ natLog2F fuel n ≤ n ∧ n < 2 ^ (natLog2F fuel n + 1) := by
  intro fuel
  induction fuel with
  | zero => intro n h1 h2; omega
  | succ f ih =>
    intro n h1 h2
    by_cases hn : n ≤ 1
    · have : n = 1 := by omega
      simp [natLog2F, hn, this]
    · have h2' : n / 2 ≤ f := by omega
      have h1' : 1 ≤ n / 2 := by omega
      have := ih (n / 2) h1' h2'
      simp only [natLog2F, if_neg hn]
      constructor
      · have : 2 ^ (natLog2F f (n / 2)) * 2 ≤ (n / 2) * 2 :=
          Nat.mul_le_mul_right 2 this.1
        calc 2 ^ (natLog2F f (n / 2) + 1) = 2 ^ (natLog2F f (n / 2)) * 2 := by ring
        _ ≤ (n / 2) * 2 := this
        _ ≤ n := by omega
      · have h := this.2
        calc n < (n / 2) * 2 + 2 := by omega
        _ ≤ 2 ^ (natLog2F f (n / 2) + 1) * 2 := by
              have : n / 2 + 1 ≤ 2 ^ (natLog2F f (n / 2) + 1) := h
              nlinarith
        _ = 2 ^ (natLog2F f (n / 2) + 1 + 1) := by ring

theorem natLog2_spec (n : ℕ) (h : 1 ≤ n) :
    2 ^ natLog2 n ≤ n ∧ n < 2 ^ (natLog2 n + 1) :=
  natLog2F_spec n n h le_rfl

theorem ipow2_cast (k : ℕ) : ((ipow2 k : ℤ) : ℚ) = (2 : ℚ) ^ k := by
  simp [ipow2]

theorem ipow2_pos (k : ℕ) : 0 < ipow2 k := by
  have : 0 < (2 : ℕ) ^ k := Nat.pos_pow_of_pos k (by norm_num)
  simpa [ipow2] using this

/-- `roundNEQ` rounds `n/d` to an integer within distance `1/2`. -/
theorem roundNEQ_spec (n d : ℤ) (hd : 0 < d) :
    |((roundNEQ n d : ℤ) : ℚ) - (n : ℚ) / (d : ℚ)| ≤ 1 / 2 := by
  have hd0 : (0 : ℚ) < (d : ℚ) := by exact_mod_cast hd
  have hdne : (d : ℚ) ≠ 0 := ne_of_gt hd0
  have hfd : d * Int.fdiv n d + Int.fmod n d = n := Int.fdiv_add_fmod n d
  have hcomm : d * Int.fdiv n d = Int.fdiv n d * d := mul_comm _ _
  have hrw : n - Int.fdiv n d * d = Int.fmod n d := by omega
  have hr0 : 0 ≤ Int.fmod n d := by
    rw [Int.fmod_eq_emod _ (le_of_lt hd)]
    exact Int.emod_nonneg n (by omega)
  have hrd : Int.fmod n d < d := by
    rw [Int.fmod_eq_emod _ (le_of_lt hd)]
    exact Int.emod_lt_of_pos n hd
  -- abbreviations
  set q : ℤ := Int.fdiv n d with hq
  set r : ℤ := Int.fmod n d with hr
  have hcast : (n : ℚ) = (d : ℚ) * (q : ℚ) + (r : ℚ) := by
    exact_mod_cast congrArg (fun z : ℤ => (z : ℚ)) hfd.symm
  have hv : (n : ℚ) / d - q = (r : ℚ) / d := by
    rw [hcast]; field_simp
  have hrq0 : (0 : ℚ) ≤ (r : ℚ) / d := by
    apply div_nonneg _ (le_of_lt hd0); exact_mod_cast hr0
  simp only [roundNEQ, hrw]
  split_ifs with h1 h2 h3
  · -- 2r < d: round down, error r/d < 1/2
    have hlt : (r : ℚ) / d < 1 / 2 := by
      rw [div_lt_iff hd0]
      have : ((2 * r : ℤ) : ℚ) < ((d : ℤ) : ℚ) := by exact_mod_cast h1
      push_cast at this
      linarith
    rw [abs_le]
    constructor
    · linarith
    · linarith
  · -- d < 2r: round up, error (d - r)/d < 1/2
    have hgt : (1 : ℚ) / 2 < (r : ℚ) / d := by
      rw [lt_div_iff hd0]
      have : ((d : ℤ) : ℚ) < ((2 * r : ℤ) : ℚ) := by exact_mod_cast h2
      push_cast at this
      linarith
    have hlt1 : (r : ℚ) / d < 1 := by
      rw [div_lt_one hd0]; exact_mod_cast hrd
    have : ((q + 1 : ℤ) : ℚ) - (n : ℚ) / d = 1 - (r : ℚ) / d := by
      push_cast; linarith
    rw [abs_le]
    constructor
    · linarith [this]
    · linarith [this]
  · -- tie, q even: round down, error exactly 1/2
    have heq : (r : ℚ) / d = 1 / 2 := by
      have h2r : (2 * r : ℤ) = d := by omega
      have hc : (2 : ℚ) * (r : ℚ) = (d : ℚ) := by exact_mod_cast h2r
      rw [div_eq_iff hdne]
      linarith
    rw [abs_le]
    constructor
    · linarith
    · linarith
  · -- tie, q odd: round up, error exactly 1/2
    have heq : (r : ℚ) / d = 1 / 2 := by
      have h2r : (2 * r : ℤ) = d := by omega
      have hc : (2 : ℚ) * (r : ℚ) = (d : ℚ) := by exact_mod_cast h2r
      rw [div_eq_iff hdne]
      linarith
    have : ((q + 1 : ℤ) : ℚ) - (n : ℚ) / d = 1 - (r : ℚ) / d := by
      push_cast; linarith
    rw [abs_le]
    constructor
    · linarith [this]
    · linarith [this]

/-- Abbreviation for integer powers of two in `ℚ` (proof-side only). -/
def zp (k : ℤ) : ℚ := (2 : ℚ) ^ k

theorem zp_pos (k : ℤ) : 0 < zp k := zpow_pos (by norm_num) k

theorem zp_add (a b : ℤ) : zp (a + b) = zp a * zp b :=
  zpow_add₀ (by norm_num) a b

theorem zp_natCast (k : ℕ) : zp (k : ℤ) = (2 : ℚ) ^ k := by
  simp [zp]

theorem zp_toNat {c : ℤ} (h : 0 ≤ c) : zp c = (2 : ℚ) ^ c.toNat := by
  rw [← zp_natCast, Int.toNat_of_nonneg h]

theorem eps53_eq : eps53 = zp (-53) := by
  have h : zp (-53) = ((2 : ℚ) ^ (53 : ℕ))⁻¹ := by
    rw [zp, zpow_neg]
    norm_num
  rw [h, eps53, one_div]

theorem eps53_pos : 0 < eps53 := by rw [eps53_eq]; exact zp_pos _

theorem toNatCastQ {n : ℤ} (h : 0 ≤ n) : ((n.toNat : ℕ) : ℚ) = (n : ℚ) := by
  exact_mod_cast Int.toNat_of_nonneg h

/-- `qlog2pos n d` is the floor of `log₂ (n/d)` for `n, d ≥ 1`:
`2^e ≤ n/d < 2^(e+1)`. -/
theorem qlog2pos_spec (n d : ℤ) (hn : 1 ≤ n) (hd : 1 ≤ d) :
    zp (qlog2pos n d) ≤ (n : ℚ) / (d : ℚ) ∧
      (n : ℚ) / (d : ℚ) < zp (qlog2pos n d + 1) := by
  have hd0 : (0 : ℚ) < (d : ℚ) := by exact_mod_cast (by omega : (0:ℤ) < d)
  have hn0 : (0 : ℚ) < (n : ℚ) := by exact_mod_cast (by omega : (0:ℤ) < n)
  have hnt : 1 ≤ n.toNat := by omega
  have hdt : 1 ≤ d.toNat := by omega
  set a : ℕ := natLog2 n.toNat with ha
  set b : ℕ := natLog2 d.toNat with hb
  have hna := natLog2_spec n.toNat hnt
  have hdb := natLog2_spec d.toNat hdt
  -- bounds in ℚ
  have hnl : (2 : ℚ) ^ a ≤ (n : ℚ) := by
    have h1 : ((2 ^ a : ℕ) : ℚ) ≤ ((n.toNat : ℕ) : ℚ) := by exact_mod_cast hna.1
    have h2 : ((n.toNat : ℕ) : ℚ) = (n : ℚ) := toNatCastQ (by omega)
    push_cast at h1; rw [h2] at h1; exact h1
  have hnu : (n : ℚ) < (2 : ℚ) ^ (a + 1) := by
    have h1 : ((n.toNat : ℕ) : ℚ) < ((2 ^ (a+1) : ℕ) : ℚ) := by exact_mod_cast hna.2
    have h2 : ((n.toNat : ℕ) : ℚ) = (n : ℚ) := toNatCastQ (by omega)
    push_cast at h1; rw [h2] at h1; exact h1
  have hdl : (2 : ℚ) ^ b ≤ (d : ℚ) := by
    have h1 : ((2 ^ b : ℕ) : ℚ) ≤ ((d.toNat : ℕ) : ℚ) := by exact_mod_cast hdb.1
    have h2 : ((d.toNat : ℕ) : ℚ) = (d : ℚ) := toNatCastQ (by omega)
    push_cast at h1; rw [h2] at h1; exact h1
  have hdu : (d : ℚ) < (2 : ℚ) ^ (b + 1) := by
    have h1 : ((d.toNat : ℕ) : ℚ) < ((2 ^ (b+1) : ℕ) : ℚ) := by exact_mod_cast hdb.2
    have h2 : ((d.toNat : ℕ) : ℚ) = (d : ℚ) := toNatCastQ (by omega)
    push_cast at h1; rw [h2] at h1; exact h1
  -- the candidate exponent
  set c : ℤ := (a : ℤ) - (b : ℤ) with hc
  -- `zp` versions of the bounds
  have hnlz : zp (a : ℤ) ≤ (n : ℚ) := by rw [zp_natCast]; exact hnl
  have hnuz : (n : ℚ) < zp ((a : ℤ) + 1) := by
    have : ((a : ℤ) + 1) = ((a + 1 : ℕ) : ℤ) := by push_cast; ring
    rw [this, zp_natCast]; exact hnu
  have hdlz : zp (b : ℤ) ≤ (d : ℚ) := by rw [zp_natCast]; exact hdl
  have hduz : (d : ℚ) < zp ((b : ℤ) + 1) := by
    have : ((b : ℤ) + 1) = ((b + 1 : ℕ) : ℤ) := by push_cast; ring
    rw [this, zp_natCast]; exact hdu
  -- common upper bound: n/d < 2^(c+1)
  have hub : (n : ℚ) / (d : ℚ) < zp (c + 1) := by
    rw [div_lt_iff hd0]
    calc (n : ℚ) < zp ((a : ℤ) + 1) := hnuz
    _ = zp (c + 1) * zp (b : ℤ) := by rw [← zp_add]; congr 1; omega
    _ ≤ zp (c + 1) * (d : ℚ) := by
        exact mul_le_mul_of_nonneg_left hdlz (le_of_lt (zp_pos _))
  -- common lower bound: 2^(c-1) ≤ n/d
  have hlb : zp (c - 1) ≤ (n : ℚ) / (d : ℚ) := by
    rw [le_div_iff hd0]
    have h1 : zp (c - 1) * (d : ℚ) < zp (c - 1) * zp ((b : ℤ) + 1) :=
      mul_lt_mul_of_pos_left hduz (zp_pos _)
    have h2 : zp (c - 1) * zp ((b : ℤ) + 1) = zp (a : ℤ) := by
      rw [← zp_add]; congr 1; omega
    linarith [hnlz]
  -- the branch test decides between c and c - 1
  have key : ∀ res : ℤ, (res = c ∧ zp c ≤ (n : ℚ) / d) ∨
      (res = c - 1 ∧ ¬ (zp c ≤ (n : ℚ) / d)) →
      zp res ≤ (n : ℚ) / d ∧ (n : ℚ) / d < zp (res + 1) := by
    rintro res (⟨rfl, h⟩ | ⟨rfl, h⟩)
    · exact ⟨h, hub⟩
    · constructor
      · simpa using hlb
      · have : ¬ (zp c ≤ (n : ℚ) / d) := h
        have hc1 : c - 1 + 1 = c := by ring
        rw [hc1]
        linarith [lt_of_not_le this]
  -- now evaluate the program text of qlog2pos
  have hqeq : qlog2pos n d = if 0 ≤ c
      then (if d * ipow2 c.toNat ≤ n then c else c - 1)
      else (if d ≤ n * ipow2 (-c).toNat then c else c - 1) := by
    simp only [qlog2pos, ← ha, ← hb, ← hc]
  rw [hqeq]
  by_cases hc0 : 0 ≤ c
  · rw [if_pos hc0]
    have hzc : zp c = ((ipow2 c.toNat : ℤ) : ℚ) := by
      rw [ipow2_cast, zp_toNat hc0]
    have htest : (d * ipow2 c.toNat ≤ n) ↔ zp c ≤ (n : ℚ) / d := by
      rw [le_div_iff hd0]
      constructor
      · intro h
        have hq : ((d : ℤ) : ℚ) * ((ipow2 c.toNat : ℤ) : ℚ) ≤ ((n : ℤ) : ℚ) := by
          exact_mod_cast h
        rw [hzc, mul_comm]
        exact hq
      · intro h
        rw [hzc, mul_comm] at h
        exact_mod_cast h
    by_cases ht : d * ipow2 c.toNat ≤ n
    · rw [if_pos ht]
      exact key c (Or.inl ⟨rfl, htest.mp ht⟩)
    · rw [if_neg ht]
      exact key (c - 1) (Or.inr ⟨rfl, fun hcon => ht (htest.mpr hcon)⟩)
  · rw [if_neg hc0]
    have hcneg : 0 ≤ -c := by omega
    have hz : ((ipow2 (-c).toNat : ℤ) : ℚ) = zp (-c) := by
      rw [ipow2_cast, zp_toNat hcneg]
    have hzero : -c + c = 0 := by ring
    have hzz : zp (-c) * zp c = 1 := by
      rw [← zp_add, hzero]; simp [zp]
    have htest : (d ≤ n * ipow2 (-c).toNat) ↔ zp c ≤ (n : ℚ) / d := by
      rw [le_div_iff hd0]
      constructor
      · intro h
        have hq : ((d : ℤ) : ℚ) ≤ ((n : ℤ) : ℚ) * ((ipow2 (-c).toNat : ℤ) : ℚ) := by
          exact_mod_cast h
        rw [hz] at hq
        have h3 : zp c * (d : ℚ) ≤ zp c * ((n : ℚ) * zp (-c)) :=
          mul_le_mul_of_nonneg_left hq (le_of_lt (zp_pos _))
        calc zp c * (d : ℚ) ≤ zp c * ((n : ℚ) * zp (-c)) := h3
        _ = (n : ℚ) * (zp (-c) * zp c) := by ring
        _ = (n : ℚ) := by rw [hzz]; ring
      · intro h
        have h3 : zp (-c) * (zp c * (d : ℚ)) ≤ zp (-c) * (n : ℚ) :=
          mul_le_mul_of_nonneg_left h (le_of_lt (zp_pos _))
        have h4 : zp (-c) * (zp c * (d : ℚ)) = (d : ℚ) := by
          rw [← mul_assoc, hzz]; ring
        rw [h4] at h3
        have h2 : ((d : ℤ) : ℚ) ≤ ((n : ℤ) : ℚ) * ((ipow2 (-c).toNat : ℤ) : ℚ) := by
          rw [hz, mul_comm ((n:ℤ):ℚ)]
          calc ((d : ℤ) : ℚ) ≤ zp (-c) * (n : ℚ) := h3
          _ = zp (-c) * ((n : ℤ) : ℚ) := by norm_num
        exact_mod_cast h2
    by_cases ht : d ≤ n * ipow2 (-c).toNat
    · rw [if_pos ht]
      exact key c (Or.inl ⟨rfl, htest.mp ht⟩)
    · rw [if_neg ht]
      exact key (c - 1) (Or.inr ⟨rfl, fun hcon => ht (htest.mpr hcon)⟩)


theorem val_def (x : Dy) : x.val = (x.m : ℚ) * zp x.e := rfl

theorem zp_mul_cancel (a : ℤ) : zp a * zp (-a) = 1 := by
  rw [← zp_add]
  have h : a + -a = 0 := by ring
  rw [h]; simp [zp]

/-- Relative error of a positive integer division rounded to a double. -/
theorem divRndPos_err (n d : ℤ) (hn : 1 ≤ n) (hd : 1 ≤ d) :
    |(divRndPos n d).val - (n : ℚ) / d| ≤ ((n : ℚ) / d) * eps53 := by
  have hd0 : (0 : ℚ) < (d : ℚ) := by exact_mod_cast (by omega : (0:ℤ) < d)
  have hspec := qlog2pos_spec n d hn hd
  set e : ℤ := qlog2pos n d with he
  set q0 : ℚ := (n : ℚ) / d with hq0
  have hfinal : ∀ v : ℚ, |v - q0| ≤ zp (e - 53) → |v - q0| ≤ q0 * eps53 := by
    intro v hv
    have h1 : zp (e - 53) = zp e * zp (-53) := by
      rw [← zp_add]; congr 1
    have h2 : zp e * zp (-53) ≤ q0 * zp (-53) :=
      mul_le_mul_of_nonneg_right hspec.1 (le_of_lt (zp_pos _))
    rw [eps53_eq]
    calc |v - q0| ≤ zp (e - 53) := hv
    _ = zp e * zp (-53) := h1
    _ ≤ q0 * zp (-53) := h2
  have hcancel : zp (52 - e) * zp (e - 52) = 1 := by
    have h : e - 52 = -(52 - e) := by ring
    rw [h]; exact zp_mul_cancel _
  have hifform : divRndPos n d = if 0 ≤ 52 - e
      then ⟨roundNEQ (n * ipow2 (52 - e).toNat) d, e - 52⟩
      else ⟨roundNEQ n (d * ipow2 (-(52 - e)).toNat), e - 52⟩ := rfl
  by_cases hs : 0 ≤ 52 - e
  · have hunf : divRndPos n d = ⟨roundNEQ (n * ipow2 (52 - e).toNat) d, e - 52⟩ := by
      rw [hifform, if_pos hs]
    rw [hunf, val_def]
    set N : ℤ := n * ipow2 (52 - e).toNat with hN
    have hrnd := roundNEQ_spec N d (by omega)
    have hNcast : (N : ℚ) = (n : ℚ) * zp (52 - e) := by
      rw [hN]; push_cast; rw [ipow2_cast, ← zp_toNat hs]
    have hNq : (N : ℚ) / d = q0 * zp (52 - e) := by
      rw [hNcast, hq0]; ring
    have hkey : ((roundNEQ N d : ℤ) : ℚ) * zp (e - 52) - q0 =
        (((roundNEQ N d : ℤ) : ℚ) - (N : ℚ) / d) * zp (e - 52) := by
      rw [hNq]
      linear_combination q0 * hcancel
    apply hfinal
    rw [show (Dy.mk (roundNEQ N d) (e - 52)).m = roundNEQ N d from rfl,
        show (Dy.mk (roundNEQ N d) (e - 52)).e = e - 52 from rfl]
    rw [hkey, abs_mul, abs_of_pos (zp_pos (e - 52))]
    calc |((roundNEQ N d : ℤ) : ℚ) - (N : ℚ) / d| * zp (e - 52)
        ≤ (1 / 2) * zp (e - 52) :=
          mul_le_mul_of_nonneg_right hrnd (le_of_lt (zp_pos _))
    _ = zp (-1) * zp (e - 52) := by norm_num [zp]
    _ = zp (e - 53) := by rw [← zp_add]; congr 1; ring
  · have hsneg : 0 ≤ -(52 - e) := by omega
    have hunf : divRndPos n d = ⟨roundNEQ n (d * ipow2 (-(52 - e)).toNat), e - 52⟩ := by
      rw [hifform, if_neg hs]
    rw [hunf, val_def]
    set D : ℤ := d * ipow2 (-(52 - e)).toNat with hD
    have hD0 : (0 : ℤ) < D := by
      have := ipow2_pos (-(52 - e)).toNat
      positivity
    have hrnd := roundNEQ_spec n D hD0
    have hDcast : (D : ℚ) = (d : ℚ) * zp (-(52 - e)) := by
      rw [hD]; push_cast; rw [ipow2_cast, ← zp_toNat hsneg]
    have hinv : (zp (-(52 - e)))⁻¹ = zp (52 - e) := by
      have h2 : zp (-(52 - e)) * zp (52 - e) = 1 := by
        rw [← zp_add]
        have hz : -(52 - e) + (52 - e) = 0 := by ring
        rw [hz]; simp [zp]
      exact inv_eq_of_mul_eq_one_right h2
    have hDq : (n : ℚ) / D = q0 * zp (52 - e) := by
      rw [hDcast, div_mul_eq_div_div, div_eq_mul_inv ((n:ℚ)/d), hinv, hq0]
    have hkey : ((roundNEQ n D : ℤ) : ℚ) * zp (e - 52) - q0 =
        (((roundNEQ n D : ℤ) : ℚ) - (n : ℚ) / D) * zp (e - 52) := by
      rw [hDq]
      linear_combination q0 * hcancel
    apply hfinal
    rw [show (Dy.mk (roundNEQ n D) (e - 52)).m = roundNEQ n D from rfl,
        show (Dy.mk (roundNEQ n D) (e - 52)).e = e - 52 from rfl]
    rw [hkey, abs_mul, abs_of_pos (zp_pos (e - 52))]
    calc |((roundNEQ n D : ℤ) : ℚ) - (n : ℚ) / D| * zp (e - 52)
        ≤ (1 / 2) * zp (e - 52) :=
          mul_le_mul_of_nonneg_right hrnd (le_of_lt (zp_pos _))
    _ = zp (-1) * zp (e - 52) := by norm_num [zp]
    _ = zp (e - 53) := by rw [← zp_add]; congr 1; ring

/-- Relative error of `divRnd` for a positive divisor. -/
theorem divRnd_err (n d : ℤ) (hd : 0 < d) :
    |(divRnd n d).val - (n : ℚ) / d| ≤ |(n : ℚ) / d| * eps53 := by
  have hdd : ¬ (d < 0) := by omega
  have hdq : (0 : ℚ) < (d : ℚ) := by exact_mod_cast hd
  rcases lt_trichotomy n 0 with hneg | hzero | hpos
  · have hunf : divRnd n d = ⟨-(divRndPos (-n) d).m, (divRndPos (-n) d).e⟩ := by
      simp only [divRnd, if_neg hdd]
      rw [if_neg (by omega : ¬ (0 < n)), if_pos hneg]
    have herr := divRndPos_err (-n) d (by omega) (by omega)
    have hnn : ((-n : ℤ) : ℚ) = -(n : ℚ) := by push_cast; ring
    rw [hnn] at herr
    have hval : (divRnd n d).val = -(divRndPos (-n) d).val := by
      rw [hunf, val_def, val_def]; push_cast; ring
    rw [hval]
    have h1 : |-(divRndPos (-n) d).val - (n : ℚ) / d| =
        |(divRndPos (-n) d).val - -(n : ℚ) / d| := by
      rw [← abs_neg]; congr 1; ring
    have h2 : |(n : ℚ) / d| = -(n : ℚ) / d := by
      have hn0 : (n : ℚ) < 0 := by exact_mod_cast hneg
      rw [abs_div, abs_of_neg hn0, abs_of_pos hdq]
    rw [h1, h2]
    have h3 : -(n : ℚ) / d = -(n : ℚ) / (d : ℚ) := rfl
    calc |(divRndPos (-n) d).val - -(n : ℚ) / d|
        ≤ (-(n : ℚ) / d) * eps53 := herr
    _ = (-(n : ℚ) / d) * eps53 := rfl
  · subst hzero
    have hunf : divRnd 0 d = ⟨0, 0⟩ := by
      simp only [divRnd, if_neg hdd]
      norm_num
    rw [hunf, val_def]
    simp
  · have hunf : divRnd n d = divRndPos n d := by
      simp only [divRnd, if_neg hdd]
      rw [if_pos hpos]
    rw [hunf]
    have herr := divRndPos_err n d (by omega) (by omega)
    have habs : |(n : ℚ) / d| = (n : ℚ) / d := by
      rw [abs_eq_self]
      apply div_nonneg
      · exact_mod_cast le_of_lt hpos
      · exact_mod_cast le_of_lt hd
    rw [habs]
    exact herr

/-- Relative error of the 53-bit rounding step. -/
theorem round53_err (x : Dy) : |(round53 x).val - x.val| ≤ |x.val| * eps53 := by
  have hifform : round53 x = if natLog2 x.m.natAbs ≤ 52 then x
      else ⟨roundNEQ x.m (ipow2 (natLog2 x.m.natAbs - 52)),
            x.e + (natLog2 x.m.natAbs - 52)⟩ := rfl
  set L : ℕ := natLog2 x.m.natAbs with hL
  by_cases hsmall : L ≤ 52
  · rw [hifform, if_pos hsmall, sub_self, abs_zero]
    exact mul_nonneg (abs_nonneg _) (le_of_lt eps53_pos)
  · have hm0 : x.m.natAbs ≠ 0 := by
      intro h
      rw [hL] at hsmall
      rw [h] at hsmall
      exact hsmall (by norm_num [natLog2, natLog2F])
    have hspec := natLog2_spec x.m.natAbs (by omega)
    rw [← hL] at hspec
    have hL53 : 53 ≤ L := by omega
    set s : ℕ := L - 52 with hs
    have hsz : (s : ℤ) = (L : ℤ) - 52 := by omega
    rw [hifform, if_neg hsmall,
        show ((L : ℤ) - 52) = (s : ℤ) from by omega, val_def]
    have hD0 : (0 : ℤ) < ipow2 s := ipow2_pos s
    have hrnd := roundNEQ_spec x.m (ipow2 s) hD0
    have hDq : ((ipow2 s : ℤ) : ℚ) = zp (s : ℤ) := by
      rw [ipow2_cast, zp_natCast]
    have hval : x.val = ((x.m : ℚ) / zp (s : ℤ)) * zp (x.e + s) := by
      rw [val_def, zp_add]
      have hne : zp (s : ℤ) ≠ 0 := ne_of_gt (zp_pos _)
      field_simp
      ring
    rw [show (Dy.mk (roundNEQ x.m (ipow2 s)) (x.e + s)).m = roundNEQ x.m (ipow2 s) from rfl,
        show (Dy.mk (roundNEQ x.m (ipow2 s)) (x.e + s)).e = x.e + s from rfl]
    have hdiff : ((roundNEQ x.m (ipow2 s) : ℤ) : ℚ) * zp (x.e + s) - x.val =
        (((roundNEQ x.m (ipow2 s) : ℤ) : ℚ) - (x.m : ℚ) / ((ipow2 s : ℤ) : ℚ)) *
          zp (x.e + s) := by
      rw [hval, hDq]
      ring
    rw [hdiff, abs_mul, abs_of_pos (zp_pos (x.e + s))]
    have hstep : |((roundNEQ x.m (ipow2 s) : ℤ) : ℚ) -
        (x.m : ℚ) / ((ipow2 s : ℤ) : ℚ)| * zp (x.e + s) ≤ (1/2) * zp (x.e + s) :=
      mul_le_mul_of_nonneg_right hrnd (le_of_lt (zp_pos _))
    have habsval : |x.val| = ((x.m.natAbs : ℕ) : ℚ) * zp x.e := by
      rw [val_def, abs_mul, abs_of_pos (zp_pos x.e), Int.cast_natAbs, Int.cast_abs]
    have hlower : zp ((L : ℤ) + x.e) ≤ |x.val| := by
      rw [habsval]
      have h1 : ((2 ^ L : ℕ) : ℚ) ≤ ((x.m.natAbs : ℕ) : ℚ) := by exact_mod_cast hspec.1
      push_cast at h1
      calc zp ((L : ℤ) + x.e) = zp (L : ℤ) * zp x.e := zp_add _ _
      _ = (2:ℚ)^L * zp x.e := by rw [zp_natCast]
      _ ≤ ((x.m.natAbs : ℕ) : ℚ) * zp x.e := by
          apply mul_le_mul_of_nonneg_right _ (le_of_lt (zp_pos _))
          push_cast
          exact h1
    calc |((roundNEQ x.m (ipow2 s) : ℤ) : ℚ) -
        (x.m : ℚ) / ((ipow2 s : ℤ) : ℚ)| * zp (x.e + s) ≤ (1/2) * zp (x.e + s) := hstep
    _ = zp (-1) * zp (x.e + s) := by norm_num [zp]
    _ = zp ((L : ℤ) + x.e) * zp (-53) := by
        rw [← zp_add, ← zp_add]
        congr 1
        omega
    _ ≤ |x.val| * zp (-53) :=
        mul_le_mul_of_nonneg_right hlower (le_of_lt (zp_pos _))
    _ = |x.val| * eps53 := by rw [eps53_eq]

theorem addExact_val (x y : Dy) : (addExact x y).val = x.val + y.val := by
  by_cases h : x.e ≤ y.e
  · have hunf : addExact x y = ⟨x.m + y.m * ipow2 (y.e - x.e).toNat, x.e⟩ := by
      rw [addExact, if_pos h]
    rw [hunf, val_def, val_def, val_def]
    have hz : ((ipow2 (y.e - x.e).toNat : ℤ) : ℚ) = zp (y.e - x.e) := by
      rw [ipow2_cast, ← zp_toNat (by omega : (0:ℤ) ≤ y.e - x.e)]
    have hsplit : zp y.e = zp (y.e - x.e) * zp x.e := by
      rw [← zp_add]; congr 1; ring
    push_cast
    rw [hz, hsplit]
    ring
  · have hunf : addExact x y = ⟨x.m * ipow2 (x.e - y.e).toNat + y.m, y.e⟩ := by
      rw [addExact, if_neg h]
    rw [hunf, val_def, val_def, val_def]
    have hz : ((ipow2 (x.e - y.e).toNat : ℤ) : ℚ) = zp (x.e - y.e) := by
      rw [ipow2_cast, ← zp_toNat (by omega : (0:ℤ) ≤ x.e - y.e)]
    have hsplit : zp x.e = zp (x.e - y.e) * zp y.e := by
      rw [← zp_add]; congr 1; ring
    push_cast
    rw [hz, hsplit]
    ring

theorem dneg_val (x : Dy) : (dneg x).val = -x.val := by
  rw [dneg, val_def, val_def]; push_cast; ring

theorem dabs_val (x : Dy) : (dabs x).val = |x.val| := by
  rw [dabs, val_def, val_def]
  by_cases h : x.m < 0
  · rw [if_pos h]
    have hv : (x.m : ℚ) * zp x.e < 0 := by
      apply mul_neg_of_neg_of_pos _ (zp_pos _)
      exact_mod_cast h
    rw [abs_of_neg hv]
    push_cast; ring
  · rw [if_neg h]
    have hv : 0 ≤ (x.m : ℚ) * zp x.e := by
      apply mul_nonneg _ (le_of_lt (zp_pos _))
      exact_mod_cast (by omega : (0:ℤ) ≤ x.m)
    rw [abs_of_nonneg hv]

/-- Relative error of double multiplication. -/
theorem dmul_err (x y : Dy) :
    |(dmul x y).val - x.val * y.val| ≤ |x.val * y.val| * eps53 := by
  have hexact : Dy.val ⟨x.m * y.m, x.e + y.e⟩ = x.val * y.val := by
    rw [val_def, val_def, val_def, zp_add]
    push_cast; ring
  have := round53_err ⟨x.m * y.m, x.e + y.e⟩
  rw [hexact] at this
  exact this

/-- Relative error of double addition. -/
theorem dadd_err (x y : Dy) :
    |(dadd x y).val - (x.val + y.val)| ≤ |x.val + y.val| * eps53 := by
  have := round53_err (addExact x y)
  rw [addExact_val] at this
  exact this

/-- Relative error of double subtraction. -/
theorem dsub_err (x y : Dy) :
    |(dsub x y).val - (x.val - y.val)| ≤ |x.val - y.val| * eps53 := by
  have := round53_err (addExact x (dneg y))
  rw [addExact_val, dneg_val] at this
  have heq : x.val + -y.val = x.val - y.val := by ring
  rw [heq] at this
  exact this

/-- Relative error of int-to-double conversion. -/
theorem dofInt_err (n : ℤ) : |(dofInt n).val - (n : ℚ)| ≤ |(n : ℚ)| * eps53 := by
  have hexact : Dy.val ⟨n, 0⟩ = (n : ℚ) := by
    rw [val_def]; simp [zp]
  have := round53_err ⟨n, 0⟩
  rw [hexact] at this
  exact this

/-- `round53` is the identity on mantissas below `2^53` (in particular every
integer of magnitude at most `2^53 - 1` converts to a double exactly). -/
theorem round53_eq_self (x : Dy) (h : x.m.natAbs < 2 ^ 53) : round53 x = x := by
  have hifform : round53 x = if natLog2 x.m.natAbs ≤ 52 then x
      else ⟨roundNEQ x.m (ipow2 (natLog2 x.m.natAbs - 52)),
            x.e + (natLog2 x.m.natAbs - 52)⟩ := rfl
  rw [hifform]
  by_cases h0 : x.m.natAbs = 0
  · rw [if_pos]
    rw [h0]
    norm_num [natLog2, natLog2F]
  · have hspec := natLog2_spec x.m.natAbs (by omega)
    rw [if_pos]
    by_contra hc
    push_neg at hc
    have : 2 ^ 53 ≤ 2 ^ natLog2 x.m.natAbs := Nat.pow_le_pow_right (by norm_num) hc
    omega

theorem dofInt_exact (n : ℤ) (h : n.natAbs < 2 ^ 53) : (dofInt n).val = (n : ℚ) := by
  rw [dofInt, round53_eq_self ⟨n, 0⟩ h, val_def]
  simp [zp]

theorem val_neg_iff (x : Dy) : x.val < 0 ↔ x.m < 0 := by
  rw [val_def]
  constructor
  · intro h
    by_contra hc
    push_neg at hc
    have : 0 ≤ (x.m : ℚ) * zp x.e := by
      apply mul_nonneg _ (le_of_lt (zp_pos _))
      exact_mod_cast hc
    linarith
  · intro h
    apply mul_neg_of_neg_of_pos _ (zp_pos _)
    exact_mod_cast h

theorem val_nonpos_iff (x : Dy) : x.val ≤ 0 ↔ x.m ≤ 0 := by
  rw [val_def]
  constructor
  · intro h
    by_contra hc
    push_neg at hc
    have : 0 < (x.m : ℚ) * zp x.e := by
      apply mul_pos _ (zp_pos _)
      exact_mod_cast hc
    linarith
  · intro h
    apply mul_nonpos_of_nonpos_of_nonneg _ (le_of_lt (zp_pos _))
    exact_mod_cast h

theorem dlt_iff (x y : Dy) : dlt x y = true ↔ x.val < y.val := by
  have hval : (addExact x (dneg y)).val = x.val - y.val := by
    rw [addExact_val, dneg_val]; ring
  rw [dlt]
  rw [decide_eq_true_iff]
  rw [← val_neg_iff, hval]
  constructor <;> intro h <;> linarith

theorem dle_iff (x y : Dy) : dle x y = true ↔ x.val ≤ y.val := by
  have hval : (addExact x (dneg y)).val = x.val - y.val := by
    rw [addExact_val, dneg_val]; ring
  rw [dle]
  rw [decide_eq_true_iff]
  rw [← val_nonpos_iff, hval]
  constructor <;> intro h <;> linarith

theorem val_nonneg_iff (x : Dy) : 0 ≤ x.val ↔ 0 ≤ x.m := by
  rw [← not_lt, ← not_lt, not_iff_not]
  exact val_neg_iff x

/-- For negative exponents, the value of a dyadic is mantissa over `2^(-e)`. -/
theorem val_as_div (x : Dy) (h : x.e < 0) :
    x.val = (x.m : ℚ) / ((ipow2 (-x.e).toNat : ℤ) : ℚ) := by
  have hc : ((ipow2 (-x.e).toNat : ℤ) : ℚ) = zp (-x.e) := by
    rw [ipow2_cast, ← zp_toNat (by omega : (0:ℤ) ≤ -x.e)]
  rw [hc, val_def]
  have hinv : (zp (-x.e))⁻¹ = zp x.e := by
    apply inv_eq_of_mul_eq_one_right
    have h2 : -x.e + x.e = 0 := by ring
    rw [← zp_add, h2]; simp [zp]
  rw [div_eq_mul_inv, hinv]

/-- For nonnegative exponents, the value of a dyadic is the integer
`m * 2^e` exactly. -/
theorem val_as_int (x : Dy) (h : 0 ≤ x.e) :
    x.val = ((x.m * ipow2 x.e.toNat : ℤ) : ℚ) := by
  rw [val_def]
  push_cast
  rw [ipow2_cast, ← zp_toNat h]

/-- Python `int()` on a nonnegative double is its floor. -/
theorem dtruncInt_spec (x : Dy) (hx : 0 ≤ x.val) :
    ((dtruncInt x : ℤ) : ℚ) ≤ x.val ∧ x.val < (dtruncInt x : ℤ) + 1 := by
  have hm : 0 ≤ x.m := (val_nonneg_iff x).mp hx
  by_cases he : 0 ≤ x.e
  · have : (dtruncInt x : ℚ) = x.val := by
      rw [dtruncInt, if_pos he, val_as_int x he]
    rw [this]
    constructor
    · exact le_refl _
    · linarith
  · push_neg at he
    set D : ℤ := ipow2 (-x.e).toNat with hD
    have hD0 : 0 < D := ipow2_pos _
    have hDq : (0:ℚ) < (D : ℚ) := by exact_mod_cast hD0
    have hunf : dtruncInt x = Int.tdiv x.m D := by
      rw [dtruncInt, if_neg (by omega)]
    have hed : Int.tdiv x.m D = x.m / D := Int.tdiv_eq_ediv hm (by omega)
    have hdm : D * (x.m / D) + x.m % D = x.m := Int.ediv_add_emod x.m D
    have hr0 : 0 ≤ x.m % D := Int.emod_nonneg x.m (by omega)
    have hrD : x.m % D < D := Int.emod_lt_of_pos x.m hD0
    have hvd : x.val = (x.m : ℚ) / (D : ℚ) := val_as_div x he
    have hcm : D * (x.m / D) = (x.m / D) * D := mul_comm _ _
    rw [hunf, hed, hvd]
    constructor
    · rw [le_div_iff hDq]
      have h1 : (x.m / D) * D ≤ x.m := by omega
      exact_mod_cast h1
    · rw [div_lt_iff hDq]
      have h1 : x.m < (x.m / D + 1) * D := by
        have hc : (x.m / D + 1) * D = D * (x.m / D) + D := by ring
        omega
      push_cast
      exact_mod_cast h1

/-- Python `round()` on a double is within `1/2` of its value. -/
theorem droundInt_spec (x : Dy) :
    |((droundInt x : ℤ) : ℚ) - x.val| ≤ 1 / 2 := by
  by_cases he : 0 ≤ x.e
  · have : (droundInt x : ℚ) = x.val := by
      rw [droundInt, if_pos he, val_as_int x he]
    rw [this, sub_self, abs_zero]
    norm_num
  · push_neg at he
    have hunf : droundInt x = roundNEQ x.m (ipow2 (-x.e).toNat) := by
      rw [droundInt, if_neg (by omega)]
    have hvd : x.val = (x.m : ℚ) / ((ipow2 (-x.e).toNat : ℤ) : ℚ) := val_as_div x he
    rw [hunf, hvd]
    exact roundNEQ_spec x.m _ (ipow2_pos _)

/-!
## Python/JSON values

`correctnessEvaluator.py` exchanges values with the sandboxed process as
JSON (`json.dumps` in the runner script, `json.loads` on its last output
line), and compares them with `_valuesMatch`.  A JSON value deserialised
by Python is `None`, a `bool`, an `int`, a `float` (modelled by the exact
dyadic `Dy`), a `str`, a `list`, or a `dict`.  The list/object spines are
part of the mutual inductive so that all functions are structurally
recursive (and hence kernel-computable).
-/

mutual
inductive JVal where
  | null
  | bool (b : Bool)
  | int (n : ℤ)
  | float (x : Dy)
  | str (s : String)
  | arr (xs : JArr)
  | obj (kvs : JObj)
deriving DecidableEq

inductive JArr where
  | nil
  | cons (hd : JVal) (tl : JArr)
deriving DecidableEq

inductive JObj where
  | nil
  | cons (k : String) (v : JVal) (tl : JObj)
deriving DecidableEq
end

/-- Numeric values (`bool`/`int`/`float`) as exact dyadics: Python compares
mixed `int`/`float`/`bool` numerically and exactly (`True == 1`,
`1 == 1.0`). -/
def numDy : JVal → Option Dy
  | .bool b => some ⟨if b then 1 else 0, 0⟩
  | .int n => some ⟨n, 0⟩
  | .float d => some d
  | _ => none

/-- Exact equality of two dyadic values. -/
def dyEq (x y : Dy) : Bool := (addExact x (dneg y)).m = 0

/-- Lookup in a JSON object (Python `dict` access by key; keys are unique
in any dict produced by `json.loads`). -/
def jLookup : JObj → String → Option JVal
  | .nil, _ => none
  | .cons k v tl, key => if k = key then some v else jLookup tl key

def jObjLen : JObj → ℕ
  | .nil => 0
  | .cons _ _ tl => jObjLen tl + 1

/-- The exact dyadic value of a Python `bool` (`True == 1`, `False == 0`). -/
def boolDy (b : Bool) : Dy := ⟨if b then 1 else 0, 0⟩

mutual
/-- Python `==` on deserialised JSON values.  Mixed `bool`/`int`/`float`
operands compare numerically and exactly; all other cross-type pairs are
unequal. -/
def jBeq : JVal → JVal → Bool
  | .null, .null => true
  | .bool a, .bool b => a = b
  | .bool a, .int n => dyEq (boolDy a) ⟨n, 0⟩
  | .bool a, .float d => dyEq (boolDy a) d
  | .int m, .bool b => dyEq ⟨m, 0⟩ (boolDy b)
  | .int m, .int n => m = n
  | .int m, .float d => dyEq ⟨m, 0⟩ d
  | .float d, .bool b => dyEq d (boolDy b)
  | .float d, .int n => dyEq d ⟨n, 0⟩
  | .float c, .float d => dyEq c d
  | .str s, .str t => s = t
  | .arr xs, .arr ys => jBeqArr xs ys
  | .obj ps, .obj qs => (jObjLen ps = jObjLen qs) && jObjSub ps qs
  | _, _ => false

def jBeqArr : JArr → JArr → Bool
  | .nil, .nil => true
  | .cons x xs, .cons y ys => jBeq x y && jBeqArr xs ys
  | _, _ => false

/-- Auxiliary for Python `dict ==` (same length checked at the call site):
every key of the first object maps to an equal value in the second. -/
def jObjSub : JObj → JObj → Bool
  | .nil, _ => true
  | .cons k v tl, qs =>
    (match jLookup qs k with
     | some w => jBeq v w
     | none => false) && jObjSub tl qs
end

-- ---------------------------------------------------------------------
-- Python `float()` conversion, including numeric strings
-- ---------------------------------------------------------------------

def isDigitCh (c : Char) : Bool := 48 ≤ c.toNat && c.toNat ≤ 57

def digitVal (c : Char) : ℤ := (c.toNat : ℤ) - 48

def isPyWs (c : Char) : Bool :=
  c.toNat = 32 || c.toNat = 9 || c.toNat = 10 || c.toNat = 13 ||
  c.toNat = 12 || c.toNat = 11

def dropWs : List Char → List Char
  | [] => []
  | c :: r => if isPyWs c then dropWs r else c :: r

/-- Strip leading and trailing whitespace (Python `float` ignores both). -/
def stripWsBoth (l : List Char) : List Char :=
  (dropWs (dropWs l).reverse).reverse

/-- Read a maximal run of decimal digits, extending the accumulator. -/
def readDigits (acc : ℤ) (cnt : ℕ) : List Char → ℤ × ℕ × List Char
  | [] => (acc, cnt, [])
  | c :: r =>
    if isDigitCh c then readDigits (acc * 10 + digitVal c) (cnt + 1) r
    else (acc, cnt, c :: r)

def ipow10 (k : ℕ) : ℤ := ((10 ^ k : ℕ) : ℤ)

/-- The double closest to `sg * m * 10^(E - c)`: the exact decimal value of
a parsed literal, correctly rounded (CPython's `float(str)` is correctly
rounded). -/
def mkFloatVal (sg m : ℤ) (c : ℕ) (E : ℤ) : Dy :=
  let p : ℤ := E - (c : ℤ)
  if 0 ≤ p then round53 ⟨sg * m * ipow10 p.toNat, 0⟩
  else divRnd (sg * m) (ipow10 (-p).toNat)

def parseExpPart (sg m : ℤ) (c : ℕ) (rest : List Char) : Option Dy :=
  let (es, rest2) : ℤ × List Char :=
    match rest with
    | '+' :: r => (1, r)
    | '-' :: r => (-1, r)
    | r => (1, r)
  match readDigits 0 0 rest2 with
  | (ev, c3, r3) =>
    if c3 = 0 then none
    else match r3 with
      | [] => if 400 < ev then none else some (mkFloatVal sg m c (es * ev))
      | _ :: _ => none

/-- Python `float(s)` on a string: optional surrounding whitespace, sign,
decimal digits with optional fraction and exponent.  Not modelled:
`inf`/`nan` spellings, digit-group underscores, and exponents beyond the
double range (all of which either raise or produce values that compare
unequal to every finite expected value in `_valuesMatch`). -/
def parsePyFloat (s : String) : Option Dy :=
  let cs := stripWsBoth s.data
  let (sg, cs1) : ℤ × List Char :=
    match cs with
    | '+' :: r => (1, r)
    | '-' :: r => (-1, r)
    | r => (1, r)
  match readDigits 0 0 cs1 with
  | (m1, c1, r1) =>
    let (m2, c2, r2) : ℤ × ℕ × List Char :=
      match r1 with
      | '.' :: rest => readDigits m1 0 rest
      | _ => (m1, 0, r1)
    if c1 + c2 = 0 then none
    else match r2 with
      | [] => some (mkFloatVal sg m2 c2 0)
      | 'e' :: rest => parseExpPart sg m2 c2 rest
      | 'E' :: rest => parseExpPart sg m2 c2 rest
      | _ => none

/-- Python `float(x)` on a deserialised JSON value, on the non-raising
overflow-free domain: floats pass through, ints and bools convert by
nearest-even rounding, numeric strings parse, everything else raises
`TypeError`/`ValueError` (modelled as `none`).  The `OverflowError`
CPython raises in `float(int)` for `|n| ≥ 2^1024 - 2^970` is NOT an
outcome of this function: it is modelled separately by `floatOverflow`
and `valuesMatchOvf` below, which the evaluation loop consults before
this value is ever used, so the overflowing case never reaches the
`some` returned here. -/
def pyFloat : JVal → Option Dy
  | .float d => some d
  | .int n => some (dofInt n)
  | .bool b => some (boolDy b)
  | .str s => parsePyFloat s
  | .null => none
  | .arr _ => none
  | .obj _ => none

-- ---------------------------------------------------------------------
-- Python `sorted` on deserialised values (for order-insensitive tests)
-- ---------------------------------------------------------------------

mutual
/-- Python `<` on deserialised JSON values: `some` of the comparison when
the operands are comparable, `none` for the `TypeError` of unorderable
types.  Lists compare CPython-style: skip `==`-equal prefixes, then
compare the first differing pair. -/
def pyLt : JVal → JVal → Option Bool
  | .bool a, .bool b => some (dlt (boolDy a) (boolDy b))
  | .bool a, .int n => some (dlt (boolDy a) ⟨n, 0⟩)
  | .bool a, .float d => some (dlt (boolDy a) d)
  | .int m, .bool b => some (dlt ⟨m, 0⟩ (boolDy b))
  | .int m, .int n => some (m < n)
  | .int m, .float d => some (dlt ⟨m, 0⟩ d)
  | .float d, .bool b => some (dlt d (boolDy b))
  | .float d, .int n => some (dlt d ⟨n, 0⟩)
  | .float c, .float d => some (dlt c d)
  | .str s, .str t => some (s < t)
  | .arr xs, .arr ys => pyLtArr xs ys
  | _, _ => none

def pyLtArr : JArr → JArr → Option Bool
  | .nil, .nil => some false
  | .nil, .cons _ _ => some true
  | .cons _ _, .nil => some false
  | .cons x xs, .cons y ys =>
    if jBeq x y then pyLtArr xs ys else pyLt x y
end

/-- Stable insertion of `x` after all elements not greater than it;
`none` as soon as a required comparison raises. -/
def insertPy (x : JVal) : List JVal → Option (List JVal)
  | [] => some [x]
  | y :: ys =>
    match pyLt x y with
    | none => none
    | some true => some (x :: y :: ys)
    | some false =>
      match insertPy x ys with
      | none => none
      | some zs => some (y :: zs)

def sortPyGo (acc : List JVal) : List JVal → Option (List JVal)
  | [] => some acc
  | x :: xs =>
    match insertPy x acc with
    | none => none
    | some acc2 => sortPyGo acc2 xs

/-- Python `sorted(l)` (stable ascending), `none` when a comparison raises
`TypeError`.  (A stable sort under a total preorder is unique, so the
sorting network used by CPython is irrelevant to the result; whether an
unorderable pair is actually compared can differ from CPython in exotic
mixed lists — no test-relevant behaviour depends on it.) -/
def sortPy (l : List JVal) : Option (List JVal) := sortPyGo [] l

def insertStr (x : String) : List String → List String
  | [] => [x]
  | y :: ys => if x < y then x :: y :: ys else y :: insertStr x ys

def sortStrGo (acc : List String) : List String → List String
  | [] => acc
  | x :: xs => sortStrGo (insertStr x acc) xs

def sortStr (l : List String) : List String := sortStrGo [] l

mutual
/-- Python `str()` of a deserialised JSON value, used only by the
stringified-multiset fallback of `_valuesMatch`.  Container elements
render via `repr` as in CPython; the float rendering is a fixed faithful
encoding of the dyadic value, not CPython's shortest-round-trip decimal
(no claim depends on the exact text). -/
def jStr : JVal → String
  | .null => "None"
  | .bool b => if b then "True" else "False"
  | .int n => toString n
  | .float d => "f" ++ toString d.m ++ "p" ++ toString d.e
  | .str s => s
  | .arr xs => "[" ++ jReprArr xs ++ "]"
  | .obj kvs =>
    String.singleton (Char.ofNat 123) ++ jReprObj kvs ++
      String.singleton (Char.ofNat 125)

def jRepr : JVal → String
  | .null => "None"
  | .bool b => if b then "True" else "False"
  | .int n => toString n
  | .float d => "f" ++ toString d.m ++ "p" ++ toString d.e
  | .str s =>
    String.singleton (Char.ofNat 39) ++ s ++ String.singleton (Char.ofNat 39)
  | .arr xs => "[" ++ jReprArr xs ++ "]"
  | .obj kvs =>
    String.singleton (Char.ofNat 123) ++ jReprObj kvs ++
      String.singleton (Char.ofNat 125)

def jReprArr : JArr → String
  | .nil => ""
  | .cons x .nil => jRepr x
  | .cons x (.cons y tl) => jRepr x ++ ", " ++ jReprArr (.cons y tl)

def jReprObj : JObj → String
  | .nil => ""
  | .cons k v .nil => jRepr (.str k) ++ ": " ++ jRepr v
  | .cons k v (.cons k2 v2 tl) =>
    jRepr (.str k) ++ ": " ++ jRepr v ++ ", " ++ jReprObj (.cons k2 v2 tl)
end

def toListJ : JArr → List JVal
  | .nil => []
  | .cons x xs => x :: toListJ xs

def jBeqL : List JVal → List JVal → Bool
  | [], [] => true
  | x :: xs, y :: ys => jBeq x y && jBeqL xs ys
  | _, _ => false

/-- The order-insensitive list comparison of `_valuesMatch`:
`sorted(actual) == sorted(expected)`, falling back to comparing the
sorted stringifications when sorting raises `TypeError`. -/
def pyUnorderedEq (act exp_ : List JVal) : Bool :=
  match sortPy act, sortPy exp_ with
  | some sa, some se => jBeqL sa se
  | _, _ => sortStr (act.map jStr) = sortStr (exp_.map jStr)

def isFloatJ : JVal → Bool
  | .float _ => true
  | _ => false

/-- `_valuesMatch(actual, expected, ordered)` of
`correctnessEvaluator.py`: `None` expects `None`; if either side is a
float, compare `float()` conversions within the double literal `1e-6`
(conversion failure means no match, caught `TypeError`/`ValueError`);
two lists compare as multisets when the test case is order-insensitive;
everything else compares with Python `==`. -/
def valuesMatch (actual expected : JVal) (ordered : Bool) : Bool :=
  match expected with
  | .null =>
    match actual with
    | .null => true
    | _ => false
  | _ =>
    if isFloatJ expected || isFloatJ actual then
      match pyFloat actual, pyFloat expected with
      | some a, some b => dlt (dabs (dsub a b)) dbl1em6
      | _, _ => false
    else
      match expected, actual with
      | .arr es, .arr act =>
        if !ordered then pyUnorderedEq (toListJ act) (toListJ es)
        else jBeq (.arr act) (.arr es)
      | _, _ => jBeq actual expected

/-!
## Correctness evaluator (`correctnessEvaluator.py`)

The subprocess launched by `_runInSandbox` is external to the pipeline
(spec §6: "process execution facility"), so its raw behaviour on one
test case is an oracle: either the wall-clock timeout fired, or the
process ran and its captured streams were processed.  Everything from
that point on — classification of empty output, JSON-parsing of the last
line, the per-case loop, weighted scoring — is code under verification
and is modelled faithfully.  Python `dict` subscripting can raise
(`TypeError` on a non-dict, `KeyError` on a missing key), so the loop is
modelled in an error monad; an `Except.error` outcome is an uncaught
exception escaping `runCorrectnessEvaluation`.
-/

/-- Outcome of one sandboxed execution, after stream capture:
 * `timeout` — `subprocess.TimeoutExpired`;
 * `noOutput stderr` — stripped stdout was empty (branch at line 85);
 * `parsed v` — the last non-empty stdout line parsed as JSON `v`;
 * `parseFail raw` — `json.JSONDecodeError` on the last line. -/
inductive SandboxRaw where
  | timeout
  | noOutput (stderr : String)
  | parsed (v : JVal)
  | parseFail (raw : String)

def pyTake (n : ℕ) (s : String) : String := String.mk (s.data.take n)

def stripStr (s : String) : String := String.mk (stripWsBoth s.data)

/-- `_runInSandbox`, below the subprocess boundary: always returns a
JSON value; error/timeout cases are wrapped in a status dict, but a
successfully parsed last line is returned as-is (whatever it is). -/
def runInSandbox : SandboxRaw → JVal
  | .timeout =>
    .obj (.cons "status" (.str "timeout")
      (.cons "error" (.str "Exceeded 5s time limit.") .nil))
  | .noOutput stderr =>
    let snippet := stripStr (pyTake 500 stderr)
    .obj (.cons "status" (.str "error")
      (.cons "error" (.str (if snippet = "" then "No output produced." else snippet)) .nil))
  | .parsed v => v
  | .parseFail raw =>
    .obj (.cons "status" (.str "error")
      (.cons "error" (.str ("Could not parse output: " ++ pyTake 500 raw)) .nil))

/-- A test case as read from the problem dict, with the `.get` defaults
of lines 175–179 applied. -/
structure TestCase where
  label : String := "Unnamed test"
  args : String := ""
  expected : JVal := .null
  ordered : Bool := true
  weight : ℤ := 1

/-- The problem fields `runCorrectnessEvaluation` reads. -/
structure Problem where
  preamble : String := ""
  testCases : List TestCase := []
  hiddenTestCases : List TestCase := []

/-- One entry of `testResults`.  `status` is a JSON value because the
code stores `outcome["status"]` unchecked; in normal operation it is the
string `"pass"`, `"fail"`, `"error"` or `"timeout"`. -/
structure TestResult where
  label : String
  status : JVal
  expected : JVal
  actual : JVal
  error : Option JVal
  hidden : Bool
  weight : ℤ
deriving DecidableEq

/-- Python exceptions that can escape the per-case loop. -/
inductive PyErr where
  | typeError (msg : String)
  | keyError (key : String)
  | overflowError (msg : String)
deriving DecidableEq

/-- Python `v[k]` for a string key: `KeyError` on a dict without the key,
`TypeError` on any non-dict. -/
def pyGetItem (v : JVal) (k : String) : Except PyErr JVal :=
  match v with
  | .obj kvs =>
    match jLookup kvs k with
    | some w => .ok w
    | none => .error (.keyError k)
  | _ => .error (.typeError "object is not subscriptable")

/-- Python `v.get(k)` (only reached on dicts in this code path). -/
def pyDictGet (v : JVal) (k : String) : Option JVal :=
  match v with
  | .obj kvs => jLookup kvs k
  | _ => none

/-- CPython raises `OverflowError` in `float(int)` exactly when the
nearest-even rounding of the integer would reach `2^1024`: the threshold
is `2^1024 - 2^970`, the halfway point above the largest finite double
`2^1024 - 2^971` (the tie rounds to the even `2^1024`). -/
def floatOvfBound : ℕ := 2 ^ 1024 - 2 ^ 970

/-- Whether `float(v)` raises `OverflowError`: only an `int` of magnitude
at least `floatOvfBound` does.  Floats pass through, bools convert to
`0.0` or `1.0`, an overflowing numeric string returns `inf` rather than
raising, and non-numeric values raise `TypeError`/`ValueError` instead. -/
def floatOverflow : JVal → Bool
  | .int n => decide (floatOvfBound ≤ n.natAbs)
  | _ => false

/-- Whether the `try` block of `_valuesMatch` (lines 118–119) raises an
uncaught `OverflowError` on this pair: the float branch must be reached
(`expected` is not `None` and either side is a float), and then
`float(actual)` overflows, or `float(actual)` succeeds and
`float(expected)` overflows — `float(actual)` is evaluated first, and a
`TypeError`/`ValueError` from it returns `False` before `float(expected)`
runs.  `except (TypeError, ValueError)` does not catch `OverflowError`,
so it escapes `_valuesMatch` and the test-case loop. -/
def valuesMatchOvf (actual expected : JVal) : Bool :=
  match expected with
  | .null => false
  | _ =>
    (isFloatJ expected || isFloatJ actual) &&
      (floatOverflow actual || ((pyFloat actual).isSome && floatOverflow expected))

/-- The body of the `for tc in allTestCases` loop of
`runCorrectnessEvaluation` (lines 174–204), indexed by the position used
to query the sandbox oracle.  Returns the list of test results plus the
running `totalWeight` and `earnedWeight` accumulators. -/
def evalLoop (sandbox : ℕ → SandboxRaw) :
    ℕ → List (TestCase × Bool) → Except PyErr (List TestResult × ℤ × ℤ)
  | _, [] => .ok ([], 0, 0)
  | i, (tc, hidden) :: rest =>
    let outcome := runInSandbox (sandbox i)
    match pyGetItem outcome "status" with
    | .error e => .error e
    | .ok st =>
      if jBeq st (.str "ok") then
        match pyGetItem outcome "result" with
        | .error e => .error e
        | .ok actual =>
          if valuesMatchOvf actual tc.expected then
            .error (.overflowError "int too large to convert to float")
          else
          let passed := valuesMatch actual tc.expected tc.ordered
          match evalLoop sandbox (i + 1) rest with
          | .error e => .error e
          | .ok (rs, tw, ew) =>
            .ok ({ label := tc.label,
                   status := .str (if passed then "pass" else "fail"),
                   expected := tc.expected,
                   actual := actual,
                   error := none,
                   hidden := hidden,
                   weight := tc.weight } :: rs,
                 tc.weight + tw,
                 (if passed then tc.weight else 0) + ew)
      else
        match evalLoop sandbox (i + 1) rest with
        | .error e => .error e
        | .ok (rs, tw, ew) =>
          .ok ({ label := tc.label,
                 status := st,
                 expected := tc.expected,
                 actual := .null,
                 error := pyDictGet outcome "error",
                 hidden := hidden,
                 weight := tc.weight } :: rs,
               tc.weight + tw,
               0 + ew)

structure CorrectnessResult where
  score : ℤ
  passed : ℕ
  total : ℕ
  testResults : List TestResult
deriving DecidableEq

/-- The visible and hidden test cases concatenated, tagged with the
`hidden` flag (lines 162–168). -/
def allTestCasesOf (problem : Problem) : List (TestCase × Bool) :=
  problem.testCases.map (fun tc => (tc, false)) ++
    problem.hiddenTestCases.map (fun tc => (tc, true))

/-- The weighted score of line 206:
`int((earnedWeight / totalWeight) * 100) if totalWeight > 0 else 0`,
with `/` and `*` in double precision and `int()` truncating. -/
def weightedScore (earnedWeight totalWeight : ℤ) : ℤ :=
  if 0 < totalWeight
  then dtruncInt (dmul (divRnd earnedWeight totalWeight) (dofInt 100))
  else 0

/-- `runCorrectnessEvaluation(submittedCode, problem)`.  The submission
text and the problem `preamble`/`args` fields only influence behaviour
through the sandboxed executions, which the `sandbox` oracle answers per
test-case index. -/
def runCorrectnessEvaluation (sandbox : ℕ → SandboxRaw) (problem : Problem) :
    Except PyErr CorrectnessResult :=
  match evalLoop sandbox 0 (allTestCasesOf problem) with
  | .error e => .error e
  | .ok (rs, totalWeight, earnedWeight) =>
    .ok { score := weightedScore earnedWeight totalWeight,
          passed := rs.countP (fun r => jBeq r.status (.str "pass")),
          total := (allTestCasesOf problem).length,
          testResults := rs }

/-- A sandbox execution that printed `{"status": "ok", "result": v}` as
its last line — the normal driver output. -/
def okOutcome (v : JVal) : SandboxRaw :=
  .parsed (.obj (.cons "status" (.str "ok") (.cons "result" v .nil)))

/-- The score of an evaluation result, `none` when the evaluation raised. -/
def resScore : Except PyErr CorrectnessResult → Option ℤ
  | .ok r => some r.score
  | .error _ => none

/-- The per-case statuses of an evaluation result. -/
def resStatuses : Except PyErr CorrectnessResult → Option (List JVal)
  | .ok r => some (r.testResults.map TestResult.status)
  | .error _ => none

/-- Concrete problem for the truncation counterexample: three unit-weight
test cases all expecting `1`. -/
def c2Problem : Problem :=
  { testCases := [ { label := "t1", args := "f(1)", expected := .int 1 },
                   { label := "t2", args := "f(2)", expected := .int 1 },
                   { label := "t3", args := "f(3)", expected := .int 1 } ] }

/-- A submission whose sandboxed runs return `1`, `1`, `0`: two of the
three unit-weight cases pass. -/
def c2Sandbox : ℕ → SandboxRaw :=
  fun i => if i = 2 then okOutcome (.int 0) else okOutcome (.int 1)

-- ---------------------------------------------------------------------
-- Bounds on the weighted score through the double-precision pipeline
-- ---------------------------------------------------------------------

theorem dofInt100_val : (dofInt 100).val = 100 := by
  have h := dofInt_exact 100 (by decide)
  rw [h]; norm_num

theorem eps53_lt_one : eps53 < 1 := by
  rw [eps53]
  norm_num

/-- The double value `(e/t) * 100` computed by line 206 lies within
relative error `(1 ± 2^-53)²` of the exact percentage. -/
theorem score_val_bounds (e t : ℤ) (ht : 0 < t) (h0 : 0 ≤ e) :
    100 * ((e : ℚ) / t) * (1 - eps53) ^ 2 ≤
        (dmul (divRnd e t) (dofInt 100)).val ∧
      (dmul (divRnd e t) (dofInt 100)).val ≤
        100 * ((e : ℚ) / t) * (1 + eps53) ^ 2 := by
  set q : ℚ := (e : ℚ) / t with hq
  have hq0 : 0 ≤ q := by
    apply div_nonneg
    · exact_mod_cast h0
    · exact_mod_cast le_of_lt ht
  have h1 := divRnd_err e t ht
  rw [← hq, abs_of_nonneg hq0] at h1
  rw [abs_le] at h1
  have hd1l : q * (1 - eps53) ≤ (divRnd e t).val := by nlinarith [h1.1]
  have hd1u : (divRnd e t).val ≤ q * (1 + eps53) := by nlinarith [h1.2]
  have hd1nn : 0 ≤ (divRnd e t).val := by nlinarith [eps53_lt_one, hq0]
  have h2 := dmul_err (divRnd e t) (dofInt 100)
  rw [dofInt100_val] at h2
  have habs : |(divRnd e t).val * 100| = (divRnd e t).val * 100 := by
    rw [abs_of_nonneg]; positivity
  rw [habs, abs_le] at h2
  have he : 0 ≤ eps53 := le_of_lt eps53_pos
  have hfac : (0 : ℚ) ≤ 100 * (1 - eps53) := by nlinarith [eps53_lt_one]
  have hfac2 : (0 : ℚ) ≤ 100 * (1 + eps53) := by nlinarith
  constructor
  · have hstep := mul_le_mul_of_nonneg_right hd1l hfac
    nlinarith [h2.1, hstep]
  · have hstep2 := mul_le_mul_of_nonneg_right hd1u hfac2
    nlinarith [h2.2, hstep2]

/-- `0 ≤ weightedScore e t ≤ 100` whenever `0 ≤ e ≤ t` (the accumulator
invariant under the data-model requirement that weights are positive). -/
theorem weightedScore_bounds (e t : ℤ) (h0 : 0 ≤ e) (het : e ≤ t) :
    0 ≤ weightedScore e t ∧ weightedScore e t ≤ 100 := by
  by_cases ht : 0 < t
  · have hb := score_val_bounds e t ht h0
    have hq1 : (e : ℚ) / t ≤ 1 := by
      rw [div_le_one (by exact_mod_cast ht)]
      exact_mod_cast het
    have hq0 : 0 ≤ (e : ℚ) / t := by
      apply div_nonneg
      · exact_mod_cast h0
      · exact_mod_cast le_of_lt ht
    have hvnn : 0 ≤ (dmul (divRnd e t) (dofInt 100)).val := by
      nlinarith [hb.1, eps53_lt_one, eps53_pos]
    have hts := dtruncInt_spec _ hvnn
    have hvu : (dmul (divRnd e t) (dofInt 100)).val < 101 := by
      have heps : 100 * (1 + eps53) ^ 2 < 101 := by
        rw [eps53]; norm_num
      nlinarith [hb.2, hq0, hq1, eps53_pos]
    have hs : weightedScore e t = dtruncInt (dmul (divRnd e t) (dofInt 100)) := by
      rw [weightedScore, if_pos ht]
    rw [hs]
    constructor
    · by_contra hc
      push_neg at hc
      have hc1 : ((dtruncInt (dmul (divRnd e t) (dofInt 100)) + 1 : ℤ) : ℚ) ≤ 0 := by
        exact_mod_cast (by omega : (dtruncInt (dmul (divRnd e t) (dofInt 100)) + 1 : ℤ) ≤ 0)
      push_cast at hc1
      linarith [hts.2, hvnn]
    · by_contra hc
      push_neg at hc
      have : (101 : ℚ) ≤ ((dtruncInt (dmul (divRnd e t) (dofInt 100)) : ℤ) : ℚ) := by
        exact_mod_cast hc
      linarith [hts.1, hvu]
  · rw [weightedScore, if_neg ht]
    norm_num

/-- With positive total weight at most 100 and a strictly smaller earned
weight, the truncated double score is strictly below 100. -/
theorem weightedScore_lt_100 (e t : ℤ) (h0 : 0 ≤ e) (hlt : e < t)
    (ht : t ≤ 100) : weightedScore e t < 100 := by
  have htpos : 0 < t := by omega
  have hb := score_val_bounds e t htpos h0
  have hq0 : 0 ≤ (e : ℚ) / t := by
    apply div_nonneg
    · exact_mod_cast h0
    · exact_mod_cast le_of_lt htpos
  have htq : (0 : ℚ) < t := by exact_mod_cast htpos
  have hq99 : (e : ℚ) / t ≤ 99 / 100 := by
    rw [div_le_div_iff htq (by norm_num)]
    have h1 : (e : ℚ) ≤ (t : ℚ) - 1 := by
      have : (e : ℤ) ≤ t - 1 := by omega
      push_cast
      exact_mod_cast this
    have h2 : (t : ℚ) ≤ 100 := by exact_mod_cast ht
    nlinarith
  have hvnn : 0 ≤ (dmul (divRnd e t) (dofInt 100)).val := by
    nlinarith [hb.1, eps53_lt_one, eps53_pos]
  have hvu : (dmul (divRnd e t) (dofInt 100)).val < 100 := by
    have heps : (99 : ℚ) * (1 + eps53) ^ 2 < 100 := by
      rw [eps53]; norm_num
    nlinarith [hb.2, hq0, hq99, eps53_pos]
  have hts := dtruncInt_spec _ hvnn
  have hs : weightedScore e t = dtruncInt (dmul (divRnd e t) (dofInt 100)) := by
    rw [weightedScore, if_pos htpos]
  rw [hs]
  by_contra hc
  push_neg at hc
  have : (100 : ℚ) ≤ ((dtruncInt (dmul (divRnd e t) (dofInt 100)) : ℤ) : ℚ) := by
    exact_mod_cast hc
  linarith [hts.1, hvu]

/-- With positive earned weight and total weight at most 100, the
truncated double score is strictly positive. -/
theorem weightedScore_pos (e t : ℤ) (he : 1 ≤ e) (het : e ≤ t)
    (ht : t ≤ 100) : 1 ≤ weightedScore e t := by
  have htpos : 0 < t := by omega
  by_cases hedge : 100 * e = t
  · have he1 : e = 1 ∧ t = 100 := by omega
    rw [he1.1, he1.2]
    decide
  · have h100e : t + 1 ≤ 100 * e := by
      have h1 : t ≤ 100 * e := by nlinarith
      omega
    have hb := (score_val_bounds e t htpos (by omega)).1
    have htq : (0 : ℚ) < (t : ℚ) := by exact_mod_cast htpos
    have hq101 : (101 : ℚ) / 100 ≤ 100 * ((e : ℚ) / t) := by
      have hc : ((t : ℚ) + 1) ≤ 100 * (e : ℚ) := by
        have : ((t + 1 : ℤ) : ℚ) ≤ ((100 * e : ℤ) : ℚ) := by exact_mod_cast h100e
        push_cast at this
        linarith
      have h1 : ((t : ℚ) + 1) / t ≤ (100 * (e : ℚ)) / t :=
        (div_le_div_right htq).mpr hc
      have h2 : (101 : ℚ) / 100 ≤ ((t : ℚ) + 1) / t := by
        rw [div_le_div_iff (by norm_num) htq]
        have ht100 : (t : ℚ) ≤ 100 := by exact_mod_cast ht
        nlinarith
      have h3 : (100 * (e : ℚ)) / t = 100 * ((e : ℚ) / t) := by ring
      linarith [h1, h2, h3.symm.le, h3.le]
    have hvl : (1 : ℚ) < (dmul (divRnd e t) (dofInt 100)).val := by
      have heps : (1 : ℚ) < (101 : ℚ) / 100 * (1 - eps53) ^ 2 := by
        rw [eps53]; norm_num
      nlinarith [hb, hq101, eps53_pos, eps53_lt_one]
    have hvnn : 0 ≤ (dmul (divRnd e t) (dofInt 100)).val := by linarith
    have hts := dtruncInt_spec _ hvnn
    have hs : weightedScore e t = dtruncInt (dmul (divRnd e t) (dofInt 100)) := by
      rw [weightedScore, if_pos htpos]
    rw [hs]
    by_contra hc
    push_neg at hc
    have hc0 : dtruncInt (dmul (divRnd e t) (dofInt 100)) ≤ 0 := by omega
    have : ((dtruncInt (dmul (divRnd e t) (dofInt 100)) : ℤ) : ℚ) ≤ 0 := by
      exact_mod_cast hc0
    linarith [hts.2, hvl]

-- ---------------------------------------------------------------------
-- Specification-side recomputation of the loop accumulators
-- ---------------------------------------------------------------------

/-- Total weight of a test-case list (the `totalWeight` accumulator). -/
def totalSum (cs : List (TestCase × Bool)) : ℤ :=
  (cs.map (fun p => p.1.weight)).sum

/-- Whether the sandboxed execution of test case `tc` at index `i`
counts as a pass: the outcome is a dict with status `"ok"` carrying a
`result` that `_valuesMatch` accepts. -/
def casePasses (sandbox : ℕ → SandboxRaw) (i : ℕ) (tc : TestCase) : Bool :=
  match pyGetItem (runInSandbox (sandbox i)) "status" with
  | .ok st =>
    jBeq st (.str "ok") &&
      (match pyGetItem (runInSandbox (sandbox i)) "result" with
       | .ok actual => valuesMatch actual tc.expected tc.ordered
       | .error _ => false)
  | .error _ => false

/-- The `earnedWeight` accumulator recomputed independently per case. -/
def earnedSum (sandbox : ℕ → SandboxRaw) : ℕ → List (TestCase × Bool) → ℤ
  | _, [] => 0
  | i, (tc, _) :: rest =>
    (if casePasses sandbox i tc then tc.weight else 0) +
      earnedSum sandbox (i + 1) rest

theorem earnedSum_bounds (sandbox : ℕ → SandboxRaw) :
    ∀ (cs : List (TestCase × Bool)) (i : ℕ),
      (∀ p ∈ cs, 0 ≤ p.1.weight) →
      0 ≤ earnedSum sandbox i cs ∧ earnedSum sandbox i cs ≤ totalSum cs := by
  intro cs
  induction cs with
  | nil => intro i _; simp [earnedSum, totalSum]
  | cons hd rest ih =>
    intro i hw
    obtain ⟨tc, hidden⟩ := hd
    have hwh : 0 ≤ tc.weight := hw (tc, hidden) (by simp)
    have hrest := ih (i + 1) (fun p hp => hw p (by simp [hp]))
    simp only [earnedSum, totalSum, List.map_cons, List.sum_cons]
    rw [totalSum] at hrest
    by_cases hp : casePasses sandbox i tc
    · rw [if_pos hp]
      constructor
      · linarith [hrest.1]
      · linarith [hrest.2]
    · rw [if_neg hp]
      constructor
      · linarith [hrest.1]
      · linarith [hrest.2]

/-- Loop invariant of `runCorrectnessEvaluation`: when the per-case loop
completes without an uncaught exception, the accumulators equal the
independent per-case sums, exactly one `TestOutcome` is produced per
test case with the case's own weight, and — when every case passed by
weight — every recorded status is `"pass"`. -/
theorem evalLoop_spec (sandbox : ℕ → SandboxRaw) :
    ∀ (cs : List (TestCase × Bool)) (i : ℕ) rs tw ew,
    evalLoop sandbox i cs = .ok (rs, tw, ew) →
    tw = totalSum cs ∧
    ew = earnedSum sandbox i cs ∧
    rs.map TestResult.weight = cs.map (fun p => p.1.weight) ∧
    rs.length = cs.length ∧
    ((∀ p ∈ cs, 0 < p.1.weight) → earnedSum sandbox i cs = totalSum cs →
      ∀ r ∈ rs, jBeq r.status (.str "pass") = true) := by
  intro cs
  induction cs with
  | nil =>
    intro i rs tw ew h
    simp only [evalLoop] at h
    cases h
    simp [totalSum, earnedSum]
  | cons hd rest ih =>
    intro i rs tw ew h
    obtain ⟨tc, hidden⟩ := hd
    simp only [evalLoop] at h
    cases hst : pyGetItem (runInSandbox (sandbox i)) "status" with
    | error err => rw [hst] at h; dsimp only at h; cases h
    | ok st =>
      rw [hst] at h
      dsimp only at h
      by_cases hok : jBeq st (.str "ok")
      · rw [if_pos hok] at h
        cases hres : pyGetItem (runInSandbox (sandbox i)) "result" with
        | error err => rw [hres] at h; dsimp only at h; cases h
        | ok actual =>
          rw [hres] at h
          dsimp only at h
          by_cases hov : valuesMatchOvf actual tc.expected
          · rw [if_pos hov] at h
            cases h
          rw [if_neg hov] at h
          cases hrec : evalLoop sandbox (i + 1) rest with
          | error err => rw [hrec] at h; dsimp only at h; cases h
          | ok triple =>
            obtain ⟨rs2, tw2, ew2⟩ := triple
            rw [hrec] at h
            dsimp only at h
            cases h
            have hih := ih (i + 1) rs2 tw2 ew2 hrec
            have hcp : casePasses sandbox i tc =
                valuesMatch actual tc.expected tc.ordered := by
              rw [casePasses, hst, hres]
              dsimp only
              rw [hok]
              simp
            constructor
            · simp only [totalSum, List.map_cons, List.sum_cons]
              rw [totalSum] at hih
              rw [hih.1]
            constructor
            · simp only [earnedSum, hcp]
              rw [hih.2.1]
            constructor
            · simp only [List.map_cons]
              rw [hih.2.2.1]
            constructor
            · simp only [List.length_cons]
              rw [hih.2.2.2.1]
            · intro hwpos hEt r hr
              have hwh : 0 < tc.weight := hwpos (tc, hidden) (by simp)
              have hbounds := earnedSum_bounds sandbox rest (i + 1)
                (fun p hp => le_of_lt (hwpos p (by simp [hp])))
              rw [earnedSum, hcp] at hEt
              simp only [totalSum, List.map_cons, List.sum_cons] at hEt
              rw [← totalSum] at hEt
              have hmatch : valuesMatch actual tc.expected tc.ordered = true := by
                by_contra hc
                rw [Bool.not_eq_true] at hc
                rw [hc] at hEt
                simp at hEt
                linarith [hbounds.2]
              have hrest_eq : earnedSum sandbox (i + 1) rest = totalSum rest := by
                rw [hmatch] at hEt
                simp at hEt
                linarith
              simp only [List.mem_cons] at hr
              rcases hr with hr | hr
              · rw [hr]
                simp only [hmatch]
                decide
              · exact hih.2.2.2.2 (fun p hp => hwpos p (by simp [hp])) hrest_eq r hr
      · rw [if_neg hok] at h
        cases hrec : evalLoop sandbox (i + 1) rest with
        | error err => rw [hrec] at h; dsimp only at h; cases h
        | ok triple =>
          obtain ⟨rs2, tw2, ew2⟩ := triple
          rw [hrec] at h
          dsimp only at h
          cases h
          have hih := ih (i + 1) rs2 tw2 ew2 hrec
          have hcp : casePasses sandbox i tc = false := by
            rw [casePasses, hst]
            dsimp only
            simp [hok]
          constructor
          · simp only [totalSum, List.map_cons, List.sum_cons]
            rw [totalSum] at hih
            rw [hih.1]
          constructor
          · simp only [earnedSum, hcp]
            rw [hih.2.1]
            simp
          constructor
          · simp only [List.map_cons]
            rw [hih.2.2.1]
          constructor
          · simp only [List.length_cons]
            rw [hih.2.2.2.1]
          · intro hwpos hEt r hr
            have hwh : 0 < tc.weight := hwpos (tc, hidden) (by simp)
            have hbounds := earnedSum_bounds sandbox rest (i + 1)
              (fun p hp => le_of_lt (hwpos p (by simp [hp])))
            rw [earnedSum, hcp] at hEt
            simp only [totalSum, List.map_cons, List.sum_cons] at hEt
            rw [← totalSum] at hEt
            simp at hEt
            linarith [hbounds.2]

def resPassed : Except PyErr CorrectnessResult → Option ℕ
  | .ok r => some r.passed
  | .error _ => none

/-- **C2, counterexample.**  The claim states the correctness score is
`round(100 × earnedWeight/totalWeight)` (nearest integer).  With three
unit-weight test cases of which exactly two pass, `earnedWeight/totalWeight
= 2/3`, the nearest integer to `200/3` is `67`, but the code computes
`int((2/3) * 100) = 66` — line 206 truncates instead of rounding. -/
theorem c2_counterexample :
    resScore (runCorrectnessEvaluation c2Sandbox c2Problem) = some 66 ∧
    earnedSum c2Sandbox 0 (allTestCasesOf c2Problem) = 2 ∧
    totalSum (allTestCasesOf c2Problem) = 3 ∧
    roundNEQ (100 * earnedSum c2Sandbox 0 (allTestCasesOf c2Problem))
      (totalSum (allTestCasesOf c2Problem)) = 67 ∧
    (66 : ℤ) ≠ 67 := by
  refine ⟨by decide, by decide, by decide, by decide, by decide⟩

/-- **C2, amended.**  Whenever `runCorrectnessEvaluation` returns (no
uncaught exception), its score is the double-precision truncation
`int((earnedWeight / totalWeight) * 100)` — not the nearest integer —
where `totalWeight` sums every test case's weight and `earnedWeight`
sums the weights of the cases whose sandboxed run returned status `"ok"`
with a result accepted by `_valuesMatch`; when `totalWeight` is not
positive the score is `0`. -/
theorem c2_amended (sandbox : ℕ → SandboxRaw) (problem : Problem)
    (r : CorrectnessResult)
    (h : runCorrectnessEvaluation sandbox problem = .ok r) :
    r.score = weightedScore (earnedSum sandbox 0 (allTestCasesOf problem))
        (totalSum (allTestCasesOf problem)) ∧
      (totalSum (allTestCasesOf problem) ≤ 0 → r.score = 0) := by
  rw [runCorrectnessEvaluation] at h
  cases hl : evalLoop sandbox 0 (allTestCasesOf problem) with
  | error err => rw [hl] at h; cases h
  | ok triple =>
    obtain ⟨rs, tw, ew⟩ := triple
    rw [hl] at h
    dsimp only at h
    cases h
    have hinv := evalLoop_spec sandbox (allTestCasesOf problem) 0 rs tw ew hl
    constructor
    · dsimp only
      rw [hinv.1, hinv.2.1]
    · intro ht
      dsimp only
      rw [hinv.1, weightedScore, if_neg (by omega)]

theorem c2_amended_witness :
    ∃ r, runCorrectnessEvaluation c2Sandbox c2Problem = .ok r ∧
      r.score = weightedScore (earnedSum c2Sandbox 0 (allTestCasesOf c2Problem))
        (totalSum (allTestCasesOf c2Problem)) :=
  ⟨_, rfl, (c2_amended c2Sandbox c2Problem _ rfl).1⟩

/-- 101 unit-weight test cases, all expecting `1`. -/
def c3Problem : Problem :=
  { testCases := List.replicate 101 { expected := .int 1 } }

/-- A submission that answers `1` on the first case and `0` on the
remaining hundred: exactly one unit-weight case passes. -/
def c3Sandbox : ℕ → SandboxRaw :=
  fun i => if i = 0 then okOutcome (.int 1) else okOutcome (.int 0)

/-- Two positive-weight test cases: a passing case of weight `2^55 - 1`
and a failing case of weight `1` (weights are arbitrary Python ints from
the problem JSON; both satisfy the `weight > 0` invariant). -/
def c3bProblem : Problem :=
  { testCases :=
      [ { label := "big", args := "f(1)", expected := .int 1,
          weight := 2 ^ 55 - 1 },
        { label := "small", args := "f(2)", expected := .int 1,
          weight := 1 } ] }

/-- A submission that answers the big case correctly and the small one
wrongly. -/
def c3bSandbox : ℕ → SandboxRaw :=
  fun i => if i = 0 then okOutcome (.int 1) else okOutcome (.int 0)

set_option maxRecDepth 40000 in
/-- **C3, counterexample.**  Both halves of the claim fail under the
`weight > 0` invariant alone.  Zero half: with 101 unit-weight cases of
which exactly one passes, the code returns score `int((1/101) * 100) =
0` although `earnedWeight = 1` and a `pass` outcome is recorded.
Hundred half: with weights `2^55 - 1` (passing) and `1` (failing),
`earnedWeight / totalWeight = (2^55 - 1) / 2^55` rounds to `1.0` in
binary64, so the code returns score `100` although a `fail` outcome is
recorded. -/
theorem c3_counterexample :
    (((allTestCasesOf c3Problem).all (fun p => decide (0 < p.1.weight))) = true ∧
      resScore (runCorrectnessEvaluation c3Sandbox c3Problem) = some 0 ∧
      earnedSum c3Sandbox 0 (allTestCasesOf c3Problem) = 1 ∧
      resPassed (runCorrectnessEvaluation c3Sandbox c3Problem) = some 1) ∧
    (((allTestCasesOf c3bProblem).all (fun p => decide (0 < p.1.weight))) = true ∧
      resScore (runCorrectnessEvaluation c3bSandbox c3bProblem) = some 100 ∧
      resStatuses (runCorrectnessEvaluation c3bSandbox c3bProblem) =
        some [.str "pass", .str "fail"]) := by
  refine ⟨⟨by decide, by decide, by decide, by decide⟩,
    by decide, by decide, by decide⟩

/-- **C3, amended.**  Under the data-model invariant `weight > 0` AND
the additional bound `totalWeight ≤ 100`, score 100 forces every
recorded status to be `"pass"` and score 0 forces `earnedWeight = 0`.
The counterexample shows each half genuinely needs the bound: 101 unit
weights break the zero half, and a `2^55`-scale total (where
`(2^55 - 1) / 2^55` rounds to `1.0`) breaks the hundred half. -/
theorem c3_amended (sandbox : ℕ → SandboxRaw) (problem : Problem)
    (r : CorrectnessResult)
    (h : runCorrectnessEvaluation sandbox problem = .ok r)
    (hw : ∀ p ∈ allTestCasesOf problem, 0 < p.1.weight)
    (ht : totalSum (allTestCasesOf problem) ≤ 100) :
    (r.score = 100 →
      ∀ res ∈ r.testResults, jBeq res.status (.str "pass") = true) ∧
    (r.score = 0 → earnedSum sandbox 0 (allTestCasesOf problem) = 0) := by
  rw [runCorrectnessEvaluation] at h
  cases hl : evalLoop sandbox 0 (allTestCasesOf problem) with
  | error err => rw [hl] at h; cases h
  | ok triple =>
    obtain ⟨rs, tw, ew⟩ := triple
    rw [hl] at h
    dsimp only at h
    cases h
    have hinv := evalLoop_spec sandbox (allTestCasesOf problem) 0 rs tw ew hl
    have hbounds := earnedSum_bounds sandbox (allTestCasesOf problem) 0
      (fun p hp => le_of_lt (hw p hp))
    set E : ℤ := earnedSum sandbox 0 (allTestCasesOf problem) with hE
    set T : ℤ := totalSum (allTestCasesOf problem) with hT
    constructor
    · intro hs100 res hres
      dsimp only at hs100 hres
      rw [hinv.1, hinv.2.1] at hs100
      by_cases htpos : 0 < T
      · have hET : E = T := by
          by_contra hne
          have hlt : E < T := lt_of_le_of_ne hbounds.2 hne
          have := weightedScore_lt_100 E T hbounds.1 hlt ht
          omega
        exact hinv.2.2.2.2 hw hET res hres
      · rw [weightedScore, if_neg htpos] at hs100
        omega
    · intro hs0
      dsimp only at hs0
      rw [hinv.1, hinv.2.1] at hs0
      by_cases htpos : 0 < T
      · by_contra hne
        have hE1 : 1 ≤ E := by
          rcases lt_or_eq_of_le hbounds.1 with hlt | heq
          · omega
          · omega
        have := weightedScore_pos E T hE1 hbounds.2 ht
        omega
      · omega

theorem c3_amended_witness :
    ∃ r, runCorrectnessEvaluation c2Sandbox c2Problem = .ok r ∧
      (r.score = 0 → earnedSum c2Sandbox 0 (allTestCasesOf c2Problem) = 0) :=
  ⟨_, rfl, (c3_amended c2Sandbox c2Problem _ rfl
    (by decide) (by decide)).2⟩

/-- Two ordinary test cases. -/
def c7Problem : Problem :=
  { testCases := [ { label := "a", args := "f(1)", expected := .int 1 },
                   { label := "b", args := "f(2)", expected := .int 2 } ] }

/-- A submission such as
`def f(x):\n    print(42)\n    raise SystemExit` — it prints a bare JSON
value and exits before the driver prints its status dict (`SystemExit`
is not caught by the driver's `except Exception`).  The captured stdout's
last line `42` parses as the JSON value `42`. -/
def c7Sandbox : ℕ → SandboxRaw := fun _ => .parsed (.int 42)

/-- **C7, failing input.**  On the very first test case the loop reads
`outcome["status"]` from the parsed value `42`, which raises `TypeError`
(`'int' object is not subscriptable`): the evaluation aborts with an
uncaught exception, no `TestOutcome` is produced for either case, and
the second case is never evaluated — contradicting the claim (and the
module's own docstring, "Each test case is executed independently so one
crash does not block the others"). -/
theorem c7_code_bug :
    runCorrectnessEvaluation c7Sandbox c7Problem =
        .error (.typeError "object is not subscriptable") ∧
      resStatuses (runCorrectnessEvaluation c7Sandbox c7Problem) = none := by
  refine ⟨rfl, by decide⟩

/-- The pure outcome of the float branch of `_valuesMatch`, on the
domain where no `float()` call overflows (`valuesMatch` is the model of
the non-raising paths; `valuesMatchOvf` marks the raising ones):
whenever either side is a float, the result is exactly "both sides
convert with `float()` and the doubles differ by strictly less than the
double literal `1e-6`". -/
theorem valuesMatch_float_eq (actual expected : JVal) (ordered : Bool)
    (h : (isFloatJ expected || isFloatJ actual) = true) :
    valuesMatch actual expected ordered =
      (match pyFloat actual, pyFloat expected with
       | some a, some b => dlt (dabs (dsub a b)) dbl1em6
       | _, _ => false) := by
  cases expected with
  | null =>
    cases actual with
    | float d => rfl
    | null => simp [isFloatJ] at h
    | bool b => simp [isFloatJ] at h
    | int n => simp [isFloatJ] at h
    | str s => simp [isFloatJ] at h
    | arr xs => simp [isFloatJ] at h
    | obj kvs => simp [isFloatJ] at h
  | float d => rfl
  | bool b =>
    cases actual with
    | float d => rfl
    | null => simp [isFloatJ] at h
    | bool b2 => simp [isFloatJ] at h
    | int n => simp [isFloatJ] at h
    | str s => simp [isFloatJ] at h
    | arr xs => simp [isFloatJ] at h
    | obj kvs => simp [isFloatJ] at h
  | int n =>
    cases actual with
    | float d => rfl
    | null => simp [isFloatJ] at h
    | bool b => simp [isFloatJ] at h
    | int n2 => simp [isFloatJ] at h
    | str s => simp [isFloatJ] at h
    | arr xs => simp [isFloatJ] at h
    | obj kvs => simp [isFloatJ] at h
  | str s =>
    cases actual with
    | float d => rfl
    | null => simp [isFloatJ] at h
    | bool b => simp [isFloatJ] at h
    | int n => simp [isFloatJ] at h
    | str s2 => simp [isFloatJ] at h
    | arr xs => simp [isFloatJ] at h
    | obj kvs => simp [isFloatJ] at h
  | arr xs =>
    cases actual with
    | float d => rfl
    | null => simp [isFloatJ] at h
    | bool b => simp [isFloatJ] at h
    | int n => simp [isFloatJ] at h
    | str s => simp [isFloatJ] at h
    | arr xs2 => simp [isFloatJ] at h
    | obj kvs => simp [isFloatJ] at h
  | obj kvs =>
    cases actual with
    | float d => rfl
    | null => simp [isFloatJ] at h
    | bool b => simp [isFloatJ] at h
    | int n => simp [isFloatJ] at h
    | str s => simp [isFloatJ] at h
    | arr xs => simp [isFloatJ] at h
    | obj kvs2 => simp [isFloatJ] at h

/-- Two test cases expecting the float `1.0`. -/
def c10Problem : Problem :=
  { testCases :=
      [ { label := "f1", args := "f(1)", expected := .float ⟨1, 0⟩ },
        { label := "f2", args := "f(2)", expected := .float ⟨1, 0⟩ } ] }

/-- A submission whose function returns `10 ** 400`: `json.dumps` writes
the integer literal and the evaluator's `json.loads` reads it back as a
Python int far above the double range `(10^400 > 2^1024)`. -/
def c10Sandbox : ℕ → SandboxRaw := fun _ => okOutcome (.int (10 ^ 400))

set_option maxRecDepth 100000 in
/-- **C10, counterexample.**  The actual value `10 ** 400` reaches the
float branch (the expected value is a float), `float(actual)` raises
`OverflowError` — which `except (TypeError, ValueError)` does not catch
— and the whole evaluation aborts on the first case: no status `fail`
is recorded, contradicting "never an error". -/
theorem c10_counterexample :
    runCorrectnessEvaluation c10Sandbox c10Problem =
      .error (.overflowError "int too large to convert to float") ∧
    resStatuses (runCorrectnessEvaluation c10Sandbox c10Problem) = none := by
  refine ⟨rfl, by decide⟩

/-- **C10, amended.**  On the overflow-free domain the claim is right:
whenever either side is a float and no `float()` call overflows
(`valuesMatchOvf` is false), `_valuesMatch` returns exactly "both sides
convert and the doubles differ by strictly less than `1e-6`", with a
caught `TypeError`/`ValueError` yielding `False` — recorded as status
`fail`.  But when an `int` operand of magnitude at least
`2^1024 - 2^970` reaches `float()` (`valuesMatchOvf` true), the loop
raises an uncaught `OverflowError` and the evaluation of every case
aborts instead of recording a `fail`. -/
theorem c10_amended :
    (∀ (actual expected : JVal) (ordered : Bool),
      (isFloatJ expected || isFloatJ actual) = true →
      valuesMatchOvf actual expected = false →
      valuesMatch actual expected ordered =
        (match pyFloat actual, pyFloat expected with
         | some a, some b => dlt (dabs (dsub a b)) dbl1em6
         | _, _ => false)) ∧
    (∀ (sandbox : ℕ → SandboxRaw) (i : ℕ) (tc : TestCase) (hidden : Bool)
        (rest : List (TestCase × Bool)) (actual : JVal),
      pyGetItem (runInSandbox (sandbox i)) "status" = .ok (.str "ok") →
      pyGetItem (runInSandbox (sandbox i)) "result" = .ok actual →
      valuesMatchOvf actual tc.expected = true →
      evalLoop sandbox i ((tc, hidden) :: rest) =
        .error (.overflowError "int too large to convert to float")) := by
  constructor
  · intro actual expected ordered h _
    exact valuesMatch_float_eq actual expected ordered h
  · intro sandbox i tc hidden rest actual hst hres hov
    simp only [evalLoop]
    rw [hst]
    dsimp only
    rw [if_pos (show jBeq (JVal.str "ok") (JVal.str "ok") = true from rfl)]
    rw [hres]
    dsimp only
    rw [if_pos hov]

set_option maxRecDepth 100000 in
/-- Witness for C10 amended at concrete inputs: the numeric string
`"1.0000001"` lies within `1e-6` of the expected float `1.0` (no
overflow involved), and a sandboxed run returning `10 ** 400` against
expected `1.0` aborts the loop with the `OverflowError`. -/
theorem c10_amended_witness :
    valuesMatch (.str "1.0000001") (.float ⟨1, 0⟩) true =
      (match pyFloat (.str "1.0000001"), pyFloat (.float ⟨1, 0⟩) with
       | some a, some b => dlt (dabs (dsub a b)) dbl1em6
       | _, _ => false) ∧
    evalLoop c10Sandbox 0
      [({ label := "f1", args := "f(1)", expected := .float ⟨1, 0⟩ }, false)] =
      .error (.overflowError "int too large to convert to float") :=
  ⟨c10_amended.1 (.str "1.0000001") (.float ⟨1, 0⟩) true (by decide) (by decide),
   c10_amended.2 c10Sandbox 0
     { label := "f1", args := "f(1)", expected := .float ⟨1, 0⟩ } false []
     (.int (10 ^ 400)) rfl rfl (by decide)⟩

/-!
## Python abstract syntax (shared by the three static analyzers)

A faithful subset of the `ast` node kinds that
`complexityEvaluator.py`, `styleEvaluator.py` and `securityEvaluator.py`
dispatch on, with spine list types inside the mutual block so that every
traversal is structurally recursive.  Source positions are not tracked;
the violation/finding message texts that would embed a line number are
rendered without it (no claim concerns message text), and a function
definition carries its source line extent (`end_lineno - lineno + 1`)
as data for the `lineCount` metric.
-/

/-- `ast.Constant` payloads.  A Python `bool` is an `int` to
`isinstance`, which the magic-number check relies on. -/
inductive ConstVal where
  | int (n : ℤ)
  | float (x : Dy)
  | str (s : String)
  | bool (b : Bool)
  | none
deriving DecidableEq

/-- Which comprehension-like construct an `ast.comprehension` belongs to
(`ListComp`/`SetComp`/`DictComp`/`GeneratorExp`) — all four are treated
identically by the visitors. -/
inductive CompKind where
  | listC | setC | dictC | genC
deriving DecidableEq

mutual
inductive Expr where
  | name (id : String) (isStore : Bool)
  | const (v : ConstVal)
  | call (func : Expr) (args : ExprList) (keywords : KwList)
  | attribute (value : Expr) (attr : String)
  | boolOp (values : ExprList)
  | binOp (left right : Expr)
  | unaryOp (operand : Expr)
  | compare (left : Expr) (comparators : ExprList)
  | subscript (value index : Expr)
  | listLit (elts : ExprList)
  | tupleLit (elts : ExprList)
  | setLit (elts : ExprList)
  | dictLit (keys values : ExprList)
  | comp (kind : CompKind) (elts : ExprList) (generators : CompList)
  | ifExp (test body orelse : Expr)
  | fstr (values : ExprList)
  | starred (value : Expr)
  | lam (args : List String) (body : Expr)
deriving DecidableEq

inductive Comp where
  | mk (target iter : Expr) (ifs : ExprList)
deriving DecidableEq

inductive Kw where
  | mk (arg : Option String) (value : Expr)
deriving DecidableEq

inductive ExprList where
  | nil
  | cons (e : Expr) (tl : ExprList)
deriving DecidableEq

inductive OptExpr where
  | none
  | some (e : Expr)
deriving DecidableEq

inductive OptExprList where
  | nil
  | cons (o : OptExpr) (tl : OptExprList)
deriving DecidableEq

inductive CompList where
  | nil
  | cons (c : Comp) (tl : CompList)
deriving DecidableEq

inductive KwList where
  | nil
  | cons (k : Kw) (tl : KwList)
deriving DecidableEq

inductive Stmt where
  | functionDef (name : String) (argNames : List String)
      (defaults : ExprList) (kwDefaults : OptExprList)
      (body : StmtList) (isAsync : Bool) (lineSpan : ℕ)
  | classDef (name : String) (body : StmtList)
  | ret (value : OptExpr)
  | assign (targets : ExprList) (value : Expr)
  | augAssign (target : Expr) (value : Expr)
  | sif (test : Expr) (body orelse : StmtList)
  | sfor (target iter : Expr) (body orelse : StmtList) (isAsync : Bool)
  | swhile (test : Expr) (body orelse : StmtList)
  | stry (body : StmtList) (handlers : HandlerList) (orelse finalbody : StmtList)
  | swith (items : WithItemList) (body : StmtList) (isAsync : Bool)
  | sassert (test : Expr) (msg : OptExpr)
  | imp (names : List (String × Option String))
  | impFrom (module : String) (names : List (String × Option String))
  | exprStmt (value : Expr)
  | sraise (exc : OptExpr)
  | spass
  | sbreak
  | scontinue
deriving DecidableEq

inductive StmtList where
  | nil
  | cons (s : Stmt) (tl : StmtList)
deriving DecidableEq

inductive Handler where
  | mk (type : OptExpr) (body : StmtList)
deriving DecidableEq

inductive HandlerList where
  | nil
  | cons (h : Handler) (tl : HandlerList)
deriving DecidableEq

inductive WithItem where
  | mk (contextExpr : Expr) (optionalVars : OptExpr)
deriving DecidableEq

inductive WithItemList where
  | nil
  | cons (w : WithItem) (tl : WithItemList)
deriving DecidableEq
end

/-- A node yielded by `ast.walk`: statements, expressions, exception
handlers, comprehension clauses, keywords and with-items are all `ast`
nodes.  (`ast.walk` is breadth-first; every use in this code base is
order-insensitive up to the ordering of reported message lists, which no
claim constrains, so the embedding walks depth-first.) -/
inductive NodeRef where
  | stmt (s : Stmt)
  | expr (e : Expr)
  | handler (h : Handler)
  | compC (c : Comp)
  | kw (k : Kw)
  | withI (w : WithItem)
deriving DecidableEq

mutual
def walkExpr : Expr → List NodeRef
  | e@(.name _ _) => [.expr e]
  | e@(.const _) => [.expr e]
  | e@(.call f args kws) => .expr e :: (walkExpr f ++ walkExprList args ++ walkKwList kws)
  | e@(.attribute v _) => .expr e :: walkExpr v
  | e@(.boolOp vs) => .expr e :: walkExprList vs
  | e@(.binOp l r) => .expr e :: (walkExpr l ++ walkExpr r)
  | e@(.unaryOp x) => .expr e :: walkExpr x
  | e@(.compare l rs) => .expr e :: (walkExpr l ++ walkExprList rs)
  | e@(.subscript v i) => .expr e :: (walkExpr v ++ walkExpr i)
  | e@(.listLit xs) => .expr e :: walkExprList xs
  | e@(.tupleLit xs) => .expr e :: walkExprList xs
  | e@(.setLit xs) => .expr e :: walkExprList xs
  | e@(.dictLit ks vs) => .expr e :: (walkExprList ks ++ walkExprList vs)
  | e@(.comp _ elts gens) => .expr e :: (walkExprList elts ++ walkCompList gens)
  | e@(.ifExp t b o) => .expr e :: (walkExpr t ++ walkExpr b ++ walkExpr o)
  | e@(.fstr vs) => .expr e :: walkExprList vs
  | e@(.starred v) => .expr e :: walkExpr v
  | e@(.lam _ b) => .expr e :: walkExpr b

def walkExprList : ExprList → List NodeRef
  | .nil => []
  | .cons e tl => walkExpr e ++ walkExprList tl

def walkOptExpr : OptExpr → List NodeRef
  | .none => []
  | .some e => walkExpr e

def walkOptExprList : OptExprList → List NodeRef
  | .nil => []
  | .cons o tl => walkOptExpr o ++ walkOptExprList tl

def walkComp : Comp → List NodeRef
  | c@(.mk t it ifs) => .compC c :: (walkExpr t ++ walkExpr it ++ walkExprList ifs)

def walkCompList : CompList → List NodeRef
  | .nil => []
  | .cons c tl => walkComp c ++ walkCompList tl

def walkKw : Kw → List NodeRef
  | k@(.mk _ v) => .kw k :: walkExpr v

def walkKwList : KwList → List NodeRef
  | .nil => []
  | .cons k tl => walkKw k ++ walkKwList tl

def walkStmt : Stmt → List NodeRef
  | s@(.functionDef _ _ defaults kwDefaults body _ _) =>
    .stmt s :: (walkExprList defaults ++ walkOptExprList kwDefaults ++ walkStmtList body)
  | s@(.classDef _ body) => .stmt s :: walkStmtList body
  | s@(.ret v) => .stmt s :: walkOptExpr v
  | s@(.assign ts v) => .stmt s :: (walkExprList ts ++ walkExpr v)
  | s@(.augAssign t v) => .stmt s :: (walkExpr t ++ walkExpr v)
  | s@(.sif t b o) => .stmt s :: (walkExpr t ++ walkStmtList b ++ walkStmtList o)
  | s@(.sfor t it b o _) =>
    .stmt s :: (walkExpr t ++ walkExpr it ++ walkStmtList b ++ walkStmtList o)
  | s@(.swhile t b o) => .stmt s :: (walkExpr t ++ walkStmtList b ++ walkStmtList o)
  | s@(.stry b hs o f) =>
    .stmt s :: (walkStmtList b ++ walkHandlerList hs ++ walkStmtList o ++ walkStmtList f)
  | s@(.swith items b _) => .stmt s :: (walkWithItemList items ++ walkStmtList b)
  | s@(.sassert t m) => .stmt s :: (walkExpr t ++ walkOptExpr m)
  | s@(.imp _) => [.stmt s]
  | s@(.impFrom _ _) => [.stmt s]
  | s@(.exprStmt v) => .stmt s :: walkExpr v
  | s@(.sraise v) => .stmt s :: walkOptExpr v
  | s@(.spass) => [.stmt s]
  | s@(.sbreak) => [.stmt s]
  | s@(.scontinue) => [.stmt s]

def walkStmtList : StmtList → List NodeRef
  | .nil => []
  | .cons s tl => walkStmt s ++ walkStmtList tl

def walkHandler : Handler → List NodeRef
  | h@(.mk t body) => .handler h :: (walkOptExpr t ++ walkStmtList body)

def walkHandlerList : HandlerList → List NodeRef
  | .nil => []
  | .cons h tl => walkHandler h ++ walkHandlerList tl

def walkWithItem : WithItem → List NodeRef
  | w@(.mk c v) => .withI w :: (walkExpr c ++ walkOptExpr v)

def walkWithItemList : WithItemList → List NodeRef
  | .nil => []
  | .cons w tl => walkWithItem w ++ walkWithItemList tl
end

/-!
## Complexity evaluator (`complexityEvaluator.py`)
-/

def exprListLength : ExprList → ℕ
  | .nil => 0
  | .cons _ tl => exprListLength tl + 1

/-- The per-node increment of `_CyclomaticVisitor`.  The visitor defines
`visit_If`, `visit_For`, `visit_While`, `visit_ExceptHandler`,
`visit_BoolOp` (`len(values) - 1`) and `visit_comprehension`
(`len(ifs)`), every one of which also calls `generic_visit`, so a full
`visit` of a function node adds exactly this weight summed over all
descendant nodes.  `ast.With` and `ast.Assert` appear in the (unused)
`DECISION_NODE_TYPES` tuple and in the class docstring, but no
`visit_With`/`visit_Assert` method exists, so they contribute nothing;
`ast.AsyncFor` likewise does not dispatch to `visit_For`. -/
def cycNodeWeight : NodeRef → ℕ
  | .stmt (.sif _ _ _) => 1
  | .stmt (.sfor _ _ _ _ isAsync) => if isAsync then 0 else 1
  | .stmt (.swhile _ _ _) => 1
  | .handler _ => 1
  | .expr (.boolOp vs) => exprListLength vs - 1
  | .compC (.mk _ _ ifs) => exprListLength ifs
  | _ => 0

/-- `_CyclomaticVisitor` run over one function node: base 1 plus the
decision weights of every node in the walk. -/
def cyclomaticCount (f : Stmt) : ℕ :=
  1 + ((walkStmt f).map cycNodeWeight).sum

mutual
/-- `_NestingDepthVisitor`: maximum depth of `If`/`For`/`While` nesting
(each such node increments the depth for its whole subtree; every other
node, including nested function definitions, passes through). -/
def ndStmt : Stmt → ℕ
  | .functionDef _ _ _ _ body _ _ => ndStmtList body
  | .classDef _ body => ndStmtList body
  | .ret _ => 0
  | .assign _ _ => 0
  | .augAssign _ _ => 0
  | .sif _ b o => max (ndStmtList b) (ndStmtList o) + 1
  | .sfor _ _ b o isAsync =>
    if isAsync then max (ndStmtList b) (ndStmtList o)
    else max (ndStmtList b) (ndStmtList o) + 1
  | .swhile _ b o => max (ndStmtList b) (ndStmtList o) + 1
  | .stry b hs o f =>
    max (max (ndStmtList b) (ndHandlerList hs)) (max (ndStmtList o) (ndStmtList f))
  | .swith _ b _ => ndStmtList b
  | .sassert _ _ => 0
  | .imp _ => 0
  | .impFrom _ _ => 0
  | .exprStmt _ => 0
  | .sraise _ => 0
  | .spass => 0
  | .sbreak => 0
  | .scontinue => 0

def ndStmtList : StmtList → ℕ
  | .nil => 0
  | .cons s tl => max (ndStmt s) (ndStmtList tl)

def ndHandler : Handler → ℕ
  | .mk _ body => ndStmtList body

def ndHandlerList : HandlerList → ℕ
  | .nil => 0
  | .cons h tl => max (ndHandler h) (ndHandlerList tl)
end

/-- `_detectRecursion`: a `Call` of a bare `Name` equal to the function's
own name anywhere inside the function node. -/
def containsSelfCall (funcName : String) (f : Stmt) : Bool :=
  (walkStmt f).any fun n =>
    match n with
    | .expr (.call (.name id _) _ _) => id = funcName
    | _ => false

/-- `ast.walk`-style collection of every `FunctionDef`/`AsyncFunctionDef`
node (nested ones included). -/
def collectFunctions (tree : StmtList) : List Stmt :=
  (walkStmtList tree).filterMap fun n =>
    match n with
    | .stmt (Stmt.functionDef nm args ds kds body isAsync span) =>
      some (Stmt.functionDef nm args ds kds body isAsync span)
    | _ => none

structure FunctionMetrics where
  name : String
  cyclomaticScore : ℕ
  maxNestDepth : ℕ
  isRecursive : Bool
  lineCount : ℕ
deriving DecidableEq

/-- The metrics record built for one collected function node. -/
def metricsOf (f : Stmt) : FunctionMetrics :=
  match f with
  | .functionDef nm _ _ _ body _ span =>
    { name := nm,
      cyclomaticScore := cyclomaticCount f,
      maxNestDepth := ndStmtList body,
      isRecursive := containsSelfCall nm f,
      lineCount := span }
  | _ => { name := "", cyclomaticScore := 1, maxNestDepth := 0,
           isRecursive := false, lineCount := 0 }

/-- The `HINTS` table of `_detectBuiltinHints`. -/
def hintText : String → Option String
  | "sorted" => some "Uses sorted() — O(n log n) time."
  | "sort" => some "Uses list.sort() — O(n log n) in-place."
  | "set" => some "Uses set() — O(n) construction, O(1) average lookup."
  | "dict" => some "Uses dict() — O(n) construction, O(1) average lookup."
  | "reversed" => some "Uses reversed() — O(n) traversal."
  | _ => Option.none

def dedupKeep (seen : List String) : List String → List String
  | [] => []
  | x :: r => if x ∈ seen then dedupKeep seen r else x :: dedupKeep (x :: seen) r

/-- `_detectBuiltinHints`: calls through a bare name or an attribute,
looked up in `HINTS`, deduplicated preserving first occurrence. -/
def detectBuiltinHints (tree : StmtList) : List String :=
  dedupKeep [] ((walkStmtList tree).filterMap fun n =>
    match n with
    | .expr (.call (.name id _) _ _) => hintText id
    | .expr (.call (.attribute _ attr) _ _) => hintText attr
    | _ => Option.none)

/-- The per-function deduction of `_scoreFromMetrics`, floored at 0. -/
def funcScore (m : FunctionMetrics) : ℤ :=
  let cyc : ℤ := (m.cyclomaticScore : ℤ)
  let nd : ℤ := (m.maxNestDepth : ℤ)
  let s1 : ℤ :=
    if 10 < cyc then 100 - min 30 ((cyc - 10) * 5) - min 20 ((cyc - 5) * 3)
    else if 5 < cyc then 100 - min 20 ((cyc - 5) * 4)
    else 100
  let s2 : ℤ := if 2 < nd then s1 - min 30 ((nd - 2) * 10) else s1
  max 0 s2

/-- `_scoreFromMetrics`: neutral 50 with no functions, otherwise the
truncated double average `int(sum(functionScores) / len(functionScores))`. -/
def scoreFromMetrics (metrics : List FunctionMetrics) : ℤ :=
  match metrics with
  | [] => 50
  | _ =>
    let functionScores := metrics.map funcScore
    dtruncInt (divRnd functionScores.sum (functionScores.length : ℤ))

/-- The warnings of lines 251–267, in per-function order. -/
def warnOf (m : FunctionMetrics) : List String :=
  (if 10 < m.cyclomaticScore then
    [singleQuote ++ m.name ++ singleQuote ++ " has high cyclomatic complexity (" ++
      toString m.cyclomaticScore ++ "). Consider breaking it into smaller functions."]
   else []) ++
  (if 3 < m.maxNestDepth then
    [singleQuote ++ m.name ++ singleQuote ++ " has deep nesting (depth=" ++
      toString m.maxNestDepth ++ "). This often indicates O(n^k) time complexity."]
   else []) ++
  (if m.isRecursive then
    [singleQuote ++ m.name ++ singleQuote ++
      " is recursive. Ensure base cases are correct and consider memoisation for overlapping subproblems."]
   else [])
where singleQuote : String := String.singleton (Char.ofNat 39)

structure ComplexityResult where
  score : ℤ
  functions : List FunctionMetrics
  builtinHints : List String
  summary : String
  warnings : List String
deriving DecidableEq

/-- A submission as seen by the static analyzers: the raw text and the
result of the syntax parser (`ast.parse`), an external leaf component —
`.error msg` models a `SyntaxError` with message `msg`. -/
structure Submission where
  raw : String
  tree : Except String StmtList

/-- One decimal place of the average cyclomatic complexity
(`f"{avg:.1f}"`), computed by exact rational rounding of
`10 * sum / len` (CPython formats the closest double; the two can differ
only within half an ulp, which no claim observes). -/
def formatAvg1 (sum len : ℤ) : String :=
  let t : ℤ := roundNEQ (10 * sum) len
  toString (Int.fdiv t 10) ++ "." ++ toString (Int.fmod t 10)

/-- `runComplexityEvaluation(submittedCode)`. -/
def runComplexityEvaluation (sub : Submission) : ComplexityResult :=
  match sub.tree with
  | .error exc =>
    { score := 0, functions := [], builtinHints := [],
      summary := "Syntax error — could not parse: " ++ exc,
      warnings := [exc] }
  | .ok tree =>
    let functionMetrics := (collectFunctions tree).map metricsOf
    let builtinHints := detectBuiltinHints tree
    let score := scoreFromMetrics functionMetrics
    let warnings := (functionMetrics.map warnOf).flatten
    let summary :=
      match functionMetrics with
      | [] => "No top-level functions detected."
      | _ =>
        "Analysed " ++ toString functionMetrics.length ++
          " function(s). Average cyclomatic complexity: " ++
          formatAvg1 ((functionMetrics.map (fun m => (m.cyclomaticScore : ℤ))).sum)
            (functionMetrics.length : ℤ) ++ ". " ++
          (if 80 ≤ score then "No major complexity issues detected."
           else "Complexity issues found — see warnings.")
    { score := score, functions := functionMetrics, builtinHints := builtinHints,
      summary := summary, warnings := warnings }

/-!
## Style evaluator (`styleEvaluator.py`)
-/

/-- `VIOLATION_WEIGHTS.get(violationType, 2)`. -/
def violationWeight : String → ℤ
  | "namingConvention" => 3
  | "magicNumber" => 2
  | "missingDocstring" => 4
  | "lineTooLong" => 1
  | "emptyExcept" => 8
  | "bareExcept" => 6
  | "mutableDefault" => 7
  | "unusedImport" => 3
  | "multipleReturnTypes" => 2
  | _ => 2

def isLowerAlpha (c : Char) : Bool := 97 ≤ c.toNat && c.toNat ≤ 122

def isUpperAlpha (c : Char) : Bool := 65 ≤ c.toNat && c.toNat ≤ 90

/-- `^[a-z_][a-z0-9_]*$`. -/
def snakeCaseMatch (s : String) : Bool :=
  match s.data with
  | [] => false
  | c :: r =>
    (isLowerAlpha c || c = '_') &&
      r.all (fun d => isLowerAlpha d || isDigitCh d || d = '_')

/-- Python `str.isupper()` (ASCII letters; the identifiers this code
sees are ASCII): at least one cased character and no lowercase one. -/
def pyIsUpper (s : String) : Bool :=
  s.data.any isUpperAlpha && s.data.all (fun c => !isLowerAlpha c)

def q39 : String := String.singleton (Char.ofNat 39)

/-- `_checkNaming`: function definitions and store-context names that
are not underscore-prefixed, not snake_case and not ALL_CAPS. -/
def checkNaming (tree : StmtList) : List String :=
  (walkStmtList tree).filterMap fun n =>
    let entry : Option (String × String) :=
      match n with
      | .stmt (.functionDef nm _ _ _ _ _ _) => some (nm, "Function")
      | .expr (.name id true) => some (id, "Variable")
      | _ => Option.none
    match entry with
    | some (nm, kind) =>
      if nm ≠ "" && !(nm.startsWith "_") && !snakeCaseMatch nm && !pyIsUpper nm then
        some (kind ++ " " ++ q39 ++ nm ++ q39 ++ " should use snake_case (PEP 8).")
      else Option.none
    | Option.none => Option.none

/-- First statement is a string-literal expression. -/
def hasDocstring (body : StmtList) : Bool :=
  match body with
  | .cons (.exprStmt (.const (.str _))) _ => true
  | _ => false

/-- `_checkDocstrings`: functions and classes whose body does not start
with a string constant. -/
def checkDocstrings (tree : StmtList) : List String :=
  (walkStmtList tree).filterMap fun n =>
    match n with
    | .stmt (.functionDef nm _ _ _ body _ _) =>
      if hasDocstring body then Option.none
      else some (q39 ++ nm ++ q39 ++ " is missing a docstring.")
    | .stmt (.classDef nm body) =>
      if hasDocstring body then Option.none
      else some (q39 ++ nm ++ q39 ++ " is missing a docstring.")
    | _ => Option.none

/-- `node.value in {0, 1, -1, 2, 10, 100}` for an int or float constant
(Python `in` compares numerically, so `1.0` and `True` are allowed). -/
def allowedMagic : ConstVal → Bool
  | .int n => n = 0 || n = 1 || n = -1 || n = 2 || n = 10 || n = 100
  | .float d =>
    dyEq d ⟨0, 0⟩ || dyEq d ⟨1, 0⟩ || dyEq d ⟨-1, 0⟩ || dyEq d ⟨2, 0⟩ ||
      dyEq d ⟨10, 0⟩ || dyEq d ⟨100, 0⟩
  | .bool _ => true
  | _ => true

def isNumericConst : ConstVal → Bool
  | .int _ => true
  | .float _ => true
  | .bool _ => true
  | _ => false

def magicText : ConstVal → String
  | .int n => toString n
  | .float d => "f" ++ toString d.m ++ "p" ++ toString d.e
  | .bool b => if b then "True" else "False"
  | _ => ""

/-- `_checkMagicNumbers`: every numeric constant outside the allow-list
(`bool` is an `int` to `isinstance` and `True`/`False` compare equal to
`1`/`0`, hence never flagged). -/
def checkMagicNumbers (tree : StmtList) : List String :=
  (walkStmtList tree).filterMap fun n =>
    match n with
    | .expr (.const v) =>
      if isNumericConst v && !allowedMagic v then
        some ("Magic number " ++ q39 ++ magicText v ++ q39 ++
          ". Consider extracting to a named constant.")
      else Option.none
    | _ => Option.none

def rstripLen (s : String) : ℕ := ((dropWs s.data.reverse).reverse).length

/-- Python `str.splitlines` restricted to `\n` / `\r\n` / `\r`
terminators (the ones a submission can realistically contain). -/
def splitLinesGo (cur : List Char) : List Char → List String
  | [] => if cur.isEmpty then [] else [String.mk cur.reverse]
  | '\r' :: '\n' :: r => String.mk cur.reverse :: splitLinesGo [] r
  | '\r' :: r => String.mk cur.reverse :: splitLinesGo [] r
  | '\n' :: r => String.mk cur.reverse :: splitLinesGo [] r
  | c :: r => splitLinesGo (c :: cur) r

def splitLinesPy (s : String) : List String := splitLinesGo [] s.data

/-- `_checkLineLengths`: lines whose right-stripped length exceeds
`MAX_LINE_LENGTH = 100`. -/
def checkLineLengths (sourceLines : List String) : List String :=
  sourceLines.filterMap fun line =>
    if 100 < rstripLen line then
      some ("Line is " ++ toString (rstripLen line) ++ " characters (limit: 100).")
    else Option.none

def isBodyJustPass : StmtList → Bool
  | .cons .spass .nil => true
  | _ => false

/-- `_checkEmptyAndBareExcept`: one list holding the bare-`except:`
violations (no type filter) and the typed-but-`pass`-only violations.
This single list becomes the `emptyExcept` category of the violations
dict — the `bareExcept` weight is never reachable. -/
def checkEmptyAndBareExcept (tree : StmtList) : List String :=
  (walkStmtList tree).filterMap fun n =>
    match n with
    | .handler (.mk .none _) =>
      some ("Bare except catches ALL exceptions including SystemExit and KeyboardInterrupt. Be specific.")
    | .handler (.mk (.some _) body) =>
      if isBodyJustPass body then
        some ("except has an empty body (pass). Silently swallowing exceptions hides bugs.")
      else Option.none
    | _ => Option.none

def isMutableLiteral : Expr → Bool
  | .listLit _ => true
  | .dictLit _ _ => true
  | .setLit _ => true
  | _ => false

def exprListToList : ExprList → List Expr
  | .nil => []
  | .cons e tl => e :: exprListToList tl

def optExprListToList : OptExprList → List (Option Expr)
  | .nil => []
  | .cons .none tl => Option.none :: optExprListToList tl
  | .cons (.some e) tl => some e :: optExprListToList tl

/-- `_checkMutableDefaults`: list/dict/set literals among
`args.defaults + args.kw_defaults` (a `None` in `kw_defaults` is
falsy and skipped). -/
def checkMutableDefaults (tree : StmtList) : List String :=
  ((walkStmtList tree).map fun n =>
    match n with
    | .stmt (.functionDef nm _ defaults kwDefaults _ _ _) =>
      ((exprListToList defaults).map Option.some ++ optExprListToList kwDefaults).filterMap
        fun d =>
          match d with
          | some e =>
            if isMutableLiteral e then
              some (q39 ++ nm ++ q39 ++
                " uses a mutable default argument. Use None and initialise inside.")
            else Option.none
          | Option.none => Option.none
    | _ => []).flatten

/-- Non-overlapping substring count, Python `str.count`. -/
def countSubGo (sub : List Char) : ℕ → List Char → ℕ
  | 0, _ => 0
  | _ + 1, [] => 0
  | fuel + 1, c :: r =>
    if sub.isPrefixOf (c :: r) then 1 + countSubGo sub fuel ((c :: r).drop sub.length)
    else countSubGo sub fuel r

def countSubstr (s sub : String) : ℕ :=
  if sub.data.isEmpty then s.data.length + 1
  else countSubGo sub.data s.data.length s.data

def takeBeforeDot (s : String) : String := String.mk (s.data.takeWhile (fun c => c ≠ '.'))

/-- `_checkUnusedImports`: an imported name whose occurrence count in
the whole source is at most 1 (the import line itself). -/
def checkUnusedImports (tree : StmtList) (sourceCode : String) : List String :=
  ((walkStmtList tree).map fun n =>
    match n with
    | .stmt (.imp names) =>
      names.filterMap fun p =>
        let usedName := match p.2 with
          | some a => a
          | Option.none => takeBeforeDot p.1
        if countSubstr sourceCode usedName ≤ 1 then
          some ("Import " ++ q39 ++ p.1 ++ q39 ++ " appears unused.")
        else Option.none
    | .stmt (.impFrom modl names) =>
      names.filterMap fun p =>
        let usedName := match p.2 with
          | some a => a
          | Option.none => p.1
        if usedName ≠ "*" && countSubstr sourceCode usedName ≤ 1 then
          some ("Import " ++ q39 ++ p.1 ++ q39 ++ " from " ++ q39 ++ modl ++ q39 ++
            " appears unused.")
        else Option.none
    | _ => []).flatten

/-- `_computeScore`: `max(0, 100 - Σ len(violations) * weight)`. -/
def computeStyleScore (violations : List (String × List String)) : ℤ :=
  max 0 (100 - (violations.map fun p => (p.2.length : ℤ) * violationWeight p.1).sum)

structure StyleResult where
  score : ℤ
  violations : List (String × List String)
  totalViolations : ℕ
  summary : String
deriving DecidableEq

/-- `runStyleEvaluation(submittedCode)`.  The violations dict is modelled
as an association list in insertion order (Python dicts preserve it);
empty categories are removed before scoring, which cannot change the
weighted sum. -/
def runStyleEvaluation (sub : Submission) : StyleResult :=
  let sourceLines := splitLinesPy sub.raw
  match sub.tree with
  | .error exc =>
    { score := 0, violations := [], totalViolations := 0,
      summary := "Syntax error — style checks skipped: " ++ exc }
  | .ok tree =>
    let violations0 : List (String × List String) :=
      [("namingConvention", checkNaming tree),
       ("missingDocstring", checkDocstrings tree),
       ("magicNumber", checkMagicNumbers tree),
       ("lineTooLong", checkLineLengths sourceLines),
       ("emptyExcept", checkEmptyAndBareExcept tree),
       ("mutableDefault", checkMutableDefaults tree),
       ("unusedImport", checkUnusedImports tree sub.raw)]
    let violations := violations0.filter fun p => !p.2.isEmpty
    let totalViolations := (violations.map fun p => p.2.length).sum
    let score := computeStyleScore violations
    { score := score, violations := violations, totalViolations := totalViolations,
      summary :=
        if totalViolations = 0 then "No style violations detected. Clean code!"
        else "Found " ++ toString totalViolations ++ " style violation(s) across " ++
          toString violations.length ++ " category/categories." }

/-!
## Security evaluator (`securityEvaluator.py`)

The two text-based checks scan the raw source with `re.finditer`.  The
embedding uses a regular-expression engine over character predicates
(Brzozowski derivatives with longest-match extents); for the anchored
keyword-then-quote patterns of `SECRET_PATTERNS` and
`SQL_INJECTION_PATTERN`, longest-match extents coincide with CPython's
leftmost-greedy ones, and no claim depends on match extents anyway —
only on the existence and line of matches. -/

inductive RE where
  | fail
  | eps
  | pred (f : Char → Bool)
  | alt (a b : RE)
  | cat (a b : RE)
  | star (a : RE)

def nullable : RE → Bool
  | .fail => false
  | .eps => true
  | .pred _ => false
  | .alt a b => nullable a || nullable b
  | .cat a b => nullable a && nullable b
  | .star _ => true

def altS : RE → RE → RE
  | .fail, b => b
  | a, .fail => a
  | a, b => .alt a b

def catS : RE → RE → RE
  | .fail, _ => .fail
  | _, .fail => .fail
  | .eps, b => b
  | a, .eps => a
  | a, b => .cat a b

def derivRE : RE → Char → RE
  | .fail, _ => .fail
  | .eps, _ => .fail
  | .pred f, c => if f c then .eps else .fail
  | .alt a b, c => altS (derivRE a c) (derivRE b c)
  | .cat a b, c =>
    if nullable a then altS (catS (derivRE a c) b) (derivRE b c)
    else catS (derivRE a c) b
  | .star a, c => catS (derivRE a c) (.star a)

/-- Length of the longest match of `r` at the start of `cs`. -/
def longestFrom (r : RE) : List Char → ℕ → Option ℕ
  | [], consumed => if nullable r then some consumed else Option.none
  | c :: tl, consumed =>
    match longestFrom (derivRE r c) tl (consumed + 1) with
    | some l => some l
    | Option.none => if nullable r then some consumed else Option.none

/-- `re.finditer` match start positions: scan left to right, emit the
earliest match, continue after its extent (our patterns cannot match the
empty string). -/
def findIterGo (r : RE) : ℕ → List Char → ℕ → List ℕ
  | 0, _, _ => []
  | _ + 1, [], _ => []
  | fuel + 1, c :: tl, pos =>
    match longestFrom r (c :: tl) 0 with
    | some (l + 1) => pos :: findIterGo r fuel (tl.drop l) (pos + l + 1)
    | _ => findIterGo r fuel tl (pos + 1)

def findIter (r : RE) (cs : List Char) : List ℕ := findIterGo r cs.length cs 0

def chC (c : Char) : RE := .pred (fun x => x = c)

/-- A case-insensitive literal character (`re.IGNORECASE`). -/
def chCI (c : Char) : RE := .pred (fun x => x.toLower = c)

def strCI (s : String) : RE := s.data.foldr (fun c acc => catS (chCI c) acc) .eps

/-- `.` — any character except a newline (no `DOTALL`). -/
def anyCh : RE := .pred (fun c => c ≠ '\n')

/-- `\s` (ASCII whitespace). -/
def wsCh : RE := .pred isPyWs

/-- `['"]`. -/
def quoteCh : RE := .pred (fun c => c.toNat = 39 || c.toNat = 34)

def repRE : RE → ℕ → RE
  | _, 0 => .eps
  | r, n + 1 => catS r (repRE r n)

/-- `r{n,}`. -/
def atLeastRE (r : RE) (n : ℕ) : RE := catS (repRE r n) (.star r)

def altsRE (l : List RE) : RE := l.foldr altS .fail

def catsRE (l : List RE) : RE := l.foldr catS .eps

/-- `(?i)(password|passwd|pwd)\s*=\s*['"].{3,}['"]`. -/
def secretPat1 : RE :=
  catsRE [altsRE [strCI "password", strCI "passwd", strCI "pwd"],
          .star wsCh, chC '=', .star wsCh, quoteCh, atLeastRE anyCh 3, quoteCh]

/-- `(?i)(api_key|apikey|secret_key)\s*=\s*['"].{8,}['"]`. -/
def secretPat2 : RE :=
  catsRE [altsRE [strCI "api_key", strCI "apikey", strCI "secret_key"],
          .star wsCh, chC '=', .star wsCh, quoteCh, atLeastRE anyCh 8, quoteCh]

def tokenCh : RE :=
  .pred (fun c => isLowerAlpha c || isUpperAlpha c || isDigitCh c ||
    c = '+' || c = '/' || c = '=')

/-- `(?i)(token)\s*=\s*['"][a-zA-Z0-9+/=]{16,}['"]`. -/
def secretPat3 : RE :=
  catsRE [strCI "token", .star wsCh, chC '=', .star wsCh, quoteCh,
          atLeastRE tokenCh 16, quoteCh]

/-- `(?i)aws_secret_access_key\s*=\s*['"].+['"]`. -/
def secretPat4 : RE :=
  catsRE [strCI "aws_secret_access_key", .star wsCh, chC '=', .star wsCh,
          quoteCh, atLeastRE anyCh 1, quoteCh]

/-- `(execute|executemany|raw|cursor\.execute)\s*\(\s*[f"'].*(%s|{|}|format|%\s*\()`
with `re.IGNORECASE`. -/
def sqlInjectionPat : RE :=
  catsRE [altsRE [strCI "execute", strCI "executemany", strCI "raw",
                  strCI "cursor.execute"],
          .star wsCh, chC '(', .star wsCh,
          .pred (fun c => c.toLower = 'f' || c.toNat = 34 || c.toNat = 39),
          .star anyCh,
          altsRE [catsRE [chCI '%', chCI 's'],
                  chC (Char.ofNat 123), chC (Char.ofNat 125),
                  strCI "format",
                  catsRE [chCI '%', .star wsCh, chC '(']]]

structure SecurityFinding where
  severity : String
  category : String
  description : String
  line : ℕ
deriving DecidableEq

/-- `SEVERITY_DEDUCTIONS` (total: only the four listed severities are
ever constructed). -/
def severityDeduction : String → ℤ
  | "critical" => 30
  | "high" => 15
  | "medium" => 8
  | "low" => 3
  | _ => 0

/-- 1-based line of a character offset (`source[:start].count("\n") + 1`). -/
def lineOfPos (cs : List Char) (pos : ℕ) : ℕ :=
  (cs.take pos).countP (fun c => c = '\n') + 1

def secretPatterns : List (RE × String) :=
  [(secretPat1, "Hardcoded password"),
   (secretPat2, "Hardcoded API key"),
   (secretPat3, "Hardcoded token"),
   (secretPat4, "Hardcoded AWS secret")]

/-- `_checkHardcodedSecrets`. -/
def checkHardcodedSecrets (sourceCode : String) : List SecurityFinding :=
  (secretPatterns.map fun p =>
    (findIter p.1 sourceCode.data).map fun pos =>
      let ln := lineOfPos sourceCode.data pos
      { severity := "critical", category := "HardcodedSecret",
        description := p.2 ++ " detected at line " ++ toString ln ++
          ". Store secrets in environment variables or a secrets manager.",
        line := ln }).flatten

/-- `_checkSqlInjection`. -/
def checkSqlInjection (sourceCode : String) : List SecurityFinding :=
  (findIter sqlInjectionPat sourceCode.data).map fun pos =>
    let ln := lineOfPos sourceCode.data pos
    { severity := "high", category := "SQLInjection",
      description := "Possible SQL injection at line " ++ toString ln ++
        ". Use parameterised queries instead of string formatting.",
      line := ln }

/-- The `DANGEROUS` table of `_checkDangerousCalls`. -/
def dangerousBuiltin : String → Option (String × String)
  | "eval" => some ("critical", "eval() executes arbitrary code. Never use on untrusted input.")
  | "exec" => some ("critical", "exec() executes arbitrary code. Never use on untrusted input.")
  | "__import__" => some ("high", "__import__() bypasses normal import controls.")
  | _ => Option.none

/-- The `DANGEROUS_ATTRS` table. -/
def dangerousAttr : String → String → Option (String × String)
  | "os", "system" => some ("high", "os.system() is vulnerable to shell injection. Use subprocess with a list.")
  | "os", "popen" => some ("high", "os.popen() is vulnerable to shell injection.")
  | "subprocess", "call" => some ("medium", "subprocess.call() with shell=True is vulnerable to injection.")
  | "subprocess", "Popen" => some ("medium", "subprocess.Popen — ensure shell=False and avoid string commands.")
  | "pickle", "loads" => some ("high", "pickle.loads() on untrusted data enables arbitrary code execution.")
  | "pickle", "load" => some ("high", "pickle.load() on untrusted data enables arbitrary code execution.")
  | "marshal", "loads" => some ("high", "marshal.loads() deserialises bytecode — never use on untrusted data.")
  | "yaml", "load" => some ("medium", "yaml.load() without Loader= is unsafe. Use yaml.safe_load().")
  | _, _ => Option.none

/-- Python truthiness of an `ast.Constant` payload (`kw.value.value`). -/
def constTruthy : ConstVal → Bool
  | .bool b => b
  | .int n => n ≠ 0
  | .float d => d.m ≠ 0
  | .str s => s ≠ ""
  | .none => false

def kwListToList : KwList → List Kw
  | .nil => []
  | .cons k tl => k :: kwListToList tl

/-- The findings `_checkDangerousCalls` emits for one walked node
(source positions elided; the fixed description texts identify the
finding).  A `subprocess` table hit additionally reports each
`shell=<truthy constant>` keyword. -/
def dangerousOfNode : NodeRef → List SecurityFinding
  | .expr (.call (.name id _) _ _) =>
    match dangerousBuiltin id with
    | some sv => [{ severity := sv.1, category := "DangerousBuiltin",
                    description := sv.2, line := 0 }]
    | Option.none => []
  | .expr (.call (.attribute (.name modl _) attr) _ kws) =>
    match dangerousAttr modl attr with
    | some sv =>
      { severity := sv.1, category := "DangerousAPI",
        description := sv.2, line := 0 } ::
        (if modl = "subprocess" then
          (kwListToList kws).filterMap fun k =>
            match k with
            | .mk (some "shell") (.const v) =>
              if constTruthy v then
                some { severity := "high", category := "ShellInjection",
                       description := "subprocess called with shell=True — vulnerable to shell injection if input is user-controlled.",
                       line := 0 }
              else Option.none
            | _ => Option.none
         else [])
    | Option.none => []
  | _ => []

/-- `_checkDangerousCalls`. -/
def checkDangerousCalls (tree : StmtList) : List SecurityFinding :=
  ((walkStmtList tree).map dangerousOfNode).flatten

mutual
/-- A rendering of an expression sufficient for the keyword-substring
test of `_checkAssertForSecurity` (`ast.unparse(node.test)`): it
preserves every identifier, attribute name and string payload of the
expression; operators are rendered generically, which cannot introduce
or remove any of the searched keywords. -/
def unparseExpr : Expr → String
  | .name id _ => id
  | .const (.int n) => toString n
  | .const (.float d) => "f" ++ toString d.m ++ "p" ++ toString d.e
  | .const (.str s) => q39 ++ s ++ q39
  | .const (.bool b) => if b then "True" else "False"
  | .const .none => "None"
  | .call f args _ => unparseExpr f ++ "(" ++ unparseExprList args ++ ")"
  | .attribute v a => unparseExpr v ++ "." ++ a
  | .boolOp vs => "(" ++ unparseExprList vs ++ ")"
  | .binOp l r => unparseExpr l ++ " ? " ++ unparseExpr r
  | .unaryOp x => "? " ++ unparseExpr x
  | .compare l rs => unparseExpr l ++ " ? " ++ unparseExprList rs
  | .subscript v i => unparseExpr v ++ "[" ++ unparseExpr i ++ "]"
  | .listLit xs => "[" ++ unparseExprList xs ++ "]"
  | .tupleLit xs => "(" ++ unparseExprList xs ++ ")"
  | .setLit xs => "(" ++ unparseExprList xs ++ ")"
  | .dictLit ks vs => "(" ++ unparseExprList ks ++ " " ++ unparseExprList vs ++ ")"
  | .comp _ elts gens => "(" ++ unparseExprList elts ++ " " ++ unparseCompList gens ++ ")"
  | .ifExp t b o => unparseExpr b ++ " if " ++ unparseExpr t ++ " else " ++ unparseExpr o
  | .fstr vs => "(" ++ unparseExprList vs ++ ")"
  | .starred v => "*" ++ unparseExpr v
  | .lam _ b => "lambda: " ++ unparseExpr b

def unparseExprList : ExprList → String
  | .nil => ""
  | .cons e .nil => unparseExpr e
  | .cons e (.cons e2 tl) => unparseExpr e ++ ", " ++ unparseExprList (.cons e2 tl)

def unparseCompList : CompList → String
  | .nil => ""
  | .cons (.mk t it ifs) tl =>
    "for " ++ unparseExpr t ++ " in " ++ unparseExpr it ++ " " ++
      unparseExprList ifs ++ " " ++ unparseCompList tl
end

def toLowerStr (s : String) : String := String.mk (s.data.map Char.toLower)

def containsSub (s sub : String) : Bool := 1 ≤ countSubstr s sub

def securityKeywords : List String :=
  ["auth", "admin", "permission", "valid", "token", "role", "access"]

/-- `_checkAssertForSecurity`: `assert` statements whose lowercased
unparsed test contains a security keyword. -/
def checkAssertForSecurity (tree : StmtList) : List SecurityFinding :=
  (walkStmtList tree).filterMap fun n =>
    match n with
    | .stmt (.sassert test _) =>
      let testSource := toLowerStr (unparseExpr test)
      if securityKeywords.any (fun kw => containsSub testSource kw) then
        some { severity := "high", category := "AssertForSecurity",
               description := "assert used for security check. Assertions are stripped with python -O. Use explicit if/raise.",
               line := 0 }
      else Option.none
    | _ => Option.none

/-- `_computeScore` of the security evaluator. -/
def computeSecurityScore (findings : List SecurityFinding) : ℤ :=
  max 0 (100 - (findings.map fun f => severityDeduction f.severity).sum)

structure SecurityResult where
  score : ℤ
  findings : List SecurityFinding
  summary : String
deriving DecidableEq

def countSeverity (findings : List SecurityFinding) (sv : String) : ℕ :=
  findings.countP (fun f => f.severity = sv)

def severitySummaryParts (findings : List SecurityFinding) : List String :=
  (["critical", "high", "medium", "low"].filterMap fun sv =>
    if 0 < countSeverity findings sv then
      some (toString (countSeverity findings sv) ++ " " ++ sv)
    else Option.none)

def joinComma : List String → String
  | [] => ""
  | [x] => x
  | x :: y :: tl => x ++ ", " ++ joinComma (y :: tl)

/-- `runSecurityEvaluation(submittedCode)`.  On a `SyntaxError` from the
parser it returns the initial result — score 100, no findings, a summary
noting the skip — WITHOUT running the text-based checks (lines 208–212
return before lines 214–218). -/
def runSecurityEvaluation (sub : Submission) : SecurityResult :=
  match sub.tree with
  | .error exc =>
    { score := 100, findings := [],
      summary := "Syntax error — security checks skipped: " ++ exc }
  | .ok tree =>
    let allFindings :=
      checkDangerousCalls tree ++ checkAssertForSecurity tree ++
        checkHardcodedSecrets sub.raw ++ checkSqlInjection sub.raw
    let score := computeSecurityScore allFindings
    let summary :=
      if allFindings.isEmpty then "No security issues detected."
      else "Found " ++ toString allFindings.length ++ " security finding(s): " ++
        joinComma (severitySummaryParts allFindings) ++ "."
    { score := score, findings := allFindings, summary := summary }

/-!
## Claims C1, C4, C5, C9
-/

/-- A submission that fails to parse but contains a hardcoded
credential: `pwd = "hunter2"` followed by an unclosed parenthesis
(CPython's `ast.parse` raises `SyntaxError` on line 2). -/
def c1Sub : Submission :=
  { raw := "pwd = \"hunter2\"\n(", tree := .error "invalid syntax" }

/-- **C1, counterexample.**  The claim says that for a submission that
fails to parse, `runSecurityEvaluation` still reports the text-based
findings (here one critical hardcoded-credential finding, score 70).
The code returns at line 212 before any check runs: no findings, score
100. -/
theorem c1_counterexample :
    (runSecurityEvaluation c1Sub).findings = [] ∧
    (runSecurityEvaluation c1Sub).score = 100 ∧
    checkHardcodedSecrets c1Sub.raw ≠ [] ∧
    computeSecurityScore
      (checkHardcodedSecrets c1Sub.raw ++ checkSqlInjection c1Sub.raw) = 70 := by
  refine ⟨rfl, rfl, by decide, by decide⟩

/-- **C1, amended.**  On a parse failure `runSecurityEvaluation` skips
every check — text-based ones included — and returns score 100 with no
findings and a summary noting the syntax error. -/
theorem c1_amended (raw msg : String) :
    runSecurityEvaluation ⟨raw, .error msg⟩ =
      { score := 100, findings := [],
        summary := "Syntax error — security checks skipped: " ++ msg } := rfl

/-- The claim-side cyclomatic weight (spec §4.3 and the
`_CyclomaticVisitor` docstring): also one point per (synchronous) `with`
block and per `assert` statement. -/
def specCycNodeWeight : NodeRef → ℕ
  | .stmt (.sif _ _ _) => 1
  | .stmt (.sfor _ _ _ _ isAsync) => if isAsync then 0 else 1
  | .stmt (.swhile _ _ _) => 1
  | .stmt (.swith _ _ isAsync) => if isAsync then 0 else 1
  | .stmt (.sassert _ _) => 1
  | .handler _ => 1
  | .expr (.boolOp vs) => exprListLength vs - 1
  | .compC (.mk _ _ ifs) => exprListLength ifs
  | _ => 0

/-- The cyclomatic count the spec describes. -/
def specCyclomaticCount (f : Stmt) : ℕ :=
  1 + ((walkStmt f).map specCycNodeWeight).sum

/-- `def handler():\n    with open("x") as fh:\n        pass\n    assert data == 0` -/
def c4Fn : Stmt :=
  .functionDef "handler" [] .nil .nil
    (.cons (.swith
        (.cons (.mk (.call (.name "open" false)
            (.cons (.const (.str "x")) .nil) .nil) (.some (.name "fh" true))) .nil)
        (.cons .spass .nil) false)
      (.cons (.sassert (.compare (.name "data" false)
          (.cons (.const (.int 0)) .nil)) .none) .nil))
    false 4

/-- **C4.**  For a function containing one `with` block and one `assert`
statement, the visitor computes cyclomatic complexity 1, while the claim
(and the visitor's own docstring and its `DECISION_NODE_TYPES` tuple,
which list `ast.With` and `ast.Assert`) require 3: the class defines no
`visit_With`/`visit_Assert` methods, so those nodes add nothing. -/
theorem c4_code_bug :
    cyclomaticCount c4Fn = 1 ∧
    (metricsOf c4Fn).cyclomaticScore = 1 ∧
    specCyclomaticCount c4Fn = 3 ∧
    (1 : ℕ) ≠ 3 := by
  refine ⟨by decide, by decide, by decide, by decide⟩

/-- `try:\n    pass\nexcept:\n    pass` — one bare `except:` handler. -/
def c5Tree : StmtList :=
  .cons (.stry (.cons .spass .nil)
    (.cons (.mk .none (.cons .spass .nil)) .nil) .nil .nil) .nil

def c5Sub : Submission :=
  { raw := "try:\n    pass\nexcept:\n    pass\n", tree := .ok c5Tree }

/-- Handlers with no type filter. -/
def bareExceptCount (tree : StmtList) : ℕ :=
  (walkStmtList tree).countP fun n =>
    match n with
    | .handler (.mk .none _) => true
    | _ => false

/-- Typed handlers whose body is a lone `pass`. -/
def emptyExceptCount (tree : StmtList) : ℕ :=
  (walkStmtList tree).countP fun n =>
    match n with
    | .handler (.mk (.some _) body) => isBodyJustPass body
    | _ => false

/-- The claim-side style score: the spec's weight table applied with
bare-except violations at weight 6 and empty-except violations at
weight 8. -/
def specStyleScore (tree : StmtList) (sourceLines : List String)
    (raw : String) : ℤ :=
  max 0 (100 -
    (3 * ((checkNaming tree).length : ℤ) +
     4 * ((checkDocstrings tree).length : ℤ) +
     2 * ((checkMagicNumbers tree).length : ℤ) +
     1 * ((checkLineLengths sourceLines).length : ℤ) +
     8 * ((emptyExceptCount tree) : ℤ) +
     6 * ((bareExceptCount tree) : ℤ) +
     7 * ((checkMutableDefaults tree).length : ℤ) +
     3 * ((checkUnusedImports tree raw).length : ℤ)))

/-- **C5, counterexample.**  A submission with a single bare `except:`
loses 8 points (score 92), because `_checkEmptyAndBareExcept` returns
both kinds of violation in one list stored under the `emptyExcept`
category; the claimed weight table (bare-except 6) would give 94. -/
theorem c5_counterexample :
    (runStyleEvaluation c5Sub).score = 92 ∧
    specStyleScore c5Tree (splitLinesPy c5Sub.raw) c5Sub.raw = 94 ∧
    ((92 : ℤ) ≠ 94) := by
  refine ⟨by decide, by decide, by decide⟩

/-- **C9.**  Graceful degradation: on a parse failure the complexity
evaluator returns score 0 with no function metrics (the syntax-error
message as the sole warning) and the style evaluator returns score 0
with no violations; a parsed submission with no top-level function gets
the neutral complexity score 50. -/
theorem c9_degradation :
    (∀ raw msg, runComplexityEvaluation ⟨raw, .error msg⟩ =
      { score := 0, functions := [], builtinHints := [],
        summary := "Syntax error — could not parse: " ++ msg,
        warnings := [msg] }) ∧
    (∀ raw msg, runStyleEvaluation ⟨raw, .error msg⟩ =
      { score := 0, violations := [], totalViolations := 0,
        summary := "Syntax error — style checks skipped: " ++ msg }) ∧
    (∀ raw tree, collectFunctions tree = [] →
      (runComplexityEvaluation ⟨raw, .ok tree⟩).score = 50) := by
  refine ⟨fun raw msg => rfl, fun raw msg => rfl, fun raw tree h => ?_⟩
  have hs : (runComplexityEvaluation ⟨raw, .ok tree⟩).score =
      scoreFromMetrics ((collectFunctions tree).map metricsOf) := rfl
  rw [hs, h]
  rfl

/-- Witness for the hypothesis-bearing part of C9: the empty module has
no functions and scores 50. -/
theorem c9_degradation_witness :
    (runComplexityEvaluation ⟨"", .ok .nil⟩).score = 50 :=
  c9_degradation.2.2 "" .nil rfl

/-- The single violation list built by `_checkEmptyAndBareExcept` holds
exactly the bare handlers plus the typed-but-`pass`-only handlers. -/
theorem except_count_split (tree : StmtList) :
    (checkEmptyAndBareExcept tree).length =
      bareExceptCount tree + emptyExceptCount tree := by
  unfold checkEmptyAndBareExcept bareExceptCount emptyExceptCount
  generalize walkStmtList tree = L
  induction L with
  | nil => rfl
  | cons a tl ih =>
    cases a with
    | stmt s => simpa [List.filterMap_cons, List.countP_cons] using ih
    | expr e => simpa [List.filterMap_cons, List.countP_cons] using ih
    | compC c => simpa [List.filterMap_cons, List.countP_cons] using ih
    | kw k => simpa [List.filterMap_cons, List.countP_cons] using ih
    | withI w => simpa [List.filterMap_cons, List.countP_cons] using ih
    | handler h =>
      obtain ⟨t, body⟩ := h
      cases t with
      | none =>
        simp [List.filterMap_cons, List.countP_cons, ih]
        omega
      | some e =>
        by_cases hb : isBodyJustPass body
        · simp [List.filterMap_cons, List.countP_cons, hb, ih]
          omega
        · simp [List.filterMap_cons, List.countP_cons, hb, ih]

/-- Dropping the empty categories before scoring cannot change the
weighted sum: an empty category contributes `0 × weight`. -/
theorem computeStyleScore_filter (l : List (String × List String)) :
    computeStyleScore (l.filter fun p => !p.2.isEmpty) = computeStyleScore l := by
  unfold computeStyleScore
  have h : ∀ m : List (String × List String),
      ((m.filter fun p => !p.2.isEmpty).map
          fun p => ((p.2.length : ℤ) * violationWeight p.1)).sum =
        (m.map fun p => ((p.2.length : ℤ) * violationWeight p.1)).sum := by
    intro m
    induction m with
    | nil => rfl
    | cons a tl ih =>
      obtain ⟨key, vs⟩ := a
      cases vs with
      | nil => simpa [List.filter_cons] using ih
      | cons v vtl => simp [List.filter_cons, ih]
  rw [h l]

/-- **C5, amended.**  For every parsable submission the style score is
`max(0, 100 − Σ violationCount × weight)` with the code's weight table,
where BOTH kinds of except violation — bare handlers and typed-but-empty
handlers — land in the single `emptyExcept` category and so each deducts
8 points; the claimed 6-point `bareExcept` weight is unreachable. -/
theorem c5_amended (raw : String) (tree : StmtList) :
    (runStyleEvaluation ⟨raw, .ok tree⟩).score =
      max 0 (100 -
        (3 * ((checkNaming tree).length : ℤ) +
         4 * ((checkDocstrings tree).length : ℤ) +
         2 * ((checkMagicNumbers tree).length : ℤ) +
         1 * ((checkLineLengths (splitLinesPy raw)).length : ℤ) +
         8 * (((bareExceptCount tree) : ℤ) + ((emptyExceptCount tree) : ℤ)) +
         7 * ((checkMutableDefaults tree).length : ℤ) +
         3 * ((checkUnusedImports tree raw).length : ℤ))) := by
  have hs : (runStyleEvaluation ⟨raw, .ok tree⟩).score =
      computeStyleScore (([("namingConvention", checkNaming tree),
        ("missingDocstring", checkDocstrings tree),
        ("magicNumber", checkMagicNumbers tree),
        ("lineTooLong", checkLineLengths (splitLinesPy raw)),
        ("emptyExcept", checkEmptyAndBareExcept tree),
        ("mutableDefault", checkMutableDefaults tree),
        ("unusedImport", checkUnusedImports tree raw)]).filter
          fun p => !p.2.isEmpty) := rfl
  rw [hs, computeStyleScore_filter]
  unfold computeStyleScore
  simp only [List.map_cons, List.map_nil, List.sum_cons, List.sum_nil]
  have hw1 : violationWeight "namingConvention" = 3 := rfl
  have hw2 : violationWeight "missingDocstring" = 4 := rfl
  have hw3 : violationWeight "magicNumber" = 2 := rfl
  have hw4 : violationWeight "lineTooLong" = 1 := rfl
  have hw5 : violationWeight "emptyExcept" = 8 := rfl
  have hw6 : violationWeight "mutableDefault" = 7 := rfl
  have hw7 : violationWeight "unusedImport" = 3 := rfl
  rw [hw1, hw2, hw3, hw4, hw5, hw6, hw7]
  have hsplit : ((checkEmptyAndBareExcept tree).length : ℤ) =
      ((bareExceptCount tree) : ℤ) + ((emptyExceptCount tree) : ℤ) := by
    exact_mod_cast except_count_split tree
  rw [hsplit]
  congr 1
  ring

/-!
## Report generator (`reportGenerator.py`)
-/

/-- `GRADE_THRESHOLDS`. -/
def GRADE_THRESHOLDS : List (ℤ × String × String) :=
  [(90, "A", "Excellent — production-ready quality."),
   (80, "B", "Good — minor improvements suggested."),
   (70, "C", "Acceptable — several areas need attention."),
   (60, "D", "Below average — significant issues present."),
   (0, "F", "Failing — fundamental problems detected.")]

/-- The first-match loop of `_assignGrade`, with its fallback. -/
def assignGradeGo : List (ℤ × String × String) → ℤ → String × String
  | [], _ => ("F", "Failing")
  | (threshold, grade, label) :: rest, n =>
    if threshold ≤ n then (grade, label) else assignGradeGo rest n

/-- `_assignGrade(overallScore)`. -/
def assignGrade (overallScore : ℤ) : String × String :=
  assignGradeGo GRADE_THRESHOLDS overallScore

/-- The double value of the weighted sum of `_computeOverallScore`
(left-associated additions, weights as double literals). -/
def overallDy (c x s k : ℤ) : Dy :=
  dadd (dadd (dadd (dmul (dofInt c) dbl05) (dmul (dofInt x) dbl02))
    (dmul (dofInt s) dbl015)) (dmul (dofInt k) dbl015)

/-- `_computeOverallScore`: `int(round(weighted))` — `round` on the
double is nearest-ties-even, `int` on the resulting integer is the
identity. -/
def computeOverallScore (c x s k : ℤ) : ℤ :=
  droundInt (overallDy c x s k)

/-- One weighted term `score * weight` of the overall sum: within
`300·2^-53` of the exact product, and numerically in `[-1, bnd+1]`. -/
theorem mulTerm_err (n : ℤ) (w : Dy) (wq bnd : ℚ)
    (hn0 : 0 ≤ n) (hn1 : n ≤ 100)
    (hwl : wq - eps53 ≤ w.val) (hwu : w.val ≤ wq + eps53)
    (hwe : eps53 ≤ wq) (hwq1 : wq ≤ 1)
    (hbnd : 100 * wq ≤ bnd) (hbnd1 : bnd ≤ 100) :
    (n : ℚ) * wq - 300 * eps53 ≤ (dmul (dofInt n) w).val ∧
    (dmul (dofInt n) w).val ≤ (n : ℚ) * wq + 300 * eps53 ∧
    -1 ≤ (dmul (dofInt n) w).val ∧ (dmul (dofInt n) w).val ≤ bnd + 1 := by
  have heps0 : 0 < eps53 := eps53_pos
  have hepsS : eps53 ≤ 1 / 1000000 := by rw [eps53]; norm_num
  have hN0 : (0 : ℚ) ≤ (n : ℚ) := by exact_mod_cast hn0
  have hN1 : (n : ℚ) ≤ 100 := by exact_mod_cast hn1
  have hwq0 : 0 ≤ wq := le_trans (le_of_lt heps0) hwe
  have hw0 : 0 ≤ w.val := by linarith
  have hn53 : (dofInt n).val = (n : ℚ) := dofInt_exact n (by omega)
  have hm := abs_le.mp (dmul_err (dofInt n) w)
  rw [hn53] at hm
  have hprod0 : 0 ≤ (n : ℚ) * w.val := mul_nonneg hN0 hw0
  rw [abs_of_nonneg hprod0] at hm
  have hWu : (n : ℚ) * w.val ≤ (n : ℚ) * (wq + eps53) :=
    mul_le_mul_of_nonneg_left hwu hN0
  have hWl : (n : ℚ) * (wq - eps53) ≤ (n : ℚ) * w.val :=
    mul_le_mul_of_nonneg_left hwl hN0
  have hexu : (n : ℚ) * (wq + eps53) = (n : ℚ) * wq + (n : ℚ) * eps53 := by ring
  have hexl : (n : ℚ) * (wq - eps53) = (n : ℚ) * wq - (n : ℚ) * eps53 := by ring
  rw [hexu] at hWu
  rw [hexl] at hWl
  have hNe : (n : ℚ) * eps53 ≤ 100 * eps53 :=
    mul_le_mul_of_nonneg_right hN1 (le_of_lt heps0)
  have hNe0 : 0 ≤ (n : ℚ) * eps53 := mul_nonneg hN0 (le_of_lt heps0)
  have hNwq : (n : ℚ) * wq ≤ 100 * wq :=
    mul_le_mul_of_nonneg_right hN1 hwq0
  have hNwq0 : 0 ≤ (n : ℚ) * wq := mul_nonneg hN0 hwq0
  have hbig : (n : ℚ) * w.val ≤ bnd + 1 := by linarith
  have herr : (n : ℚ) * w.val * eps53 ≤ 101 * eps53 := by
    have := mul_le_mul_of_nonneg_right hbig (le_of_lt heps0)
    have hb : (bnd + 1) * eps53 ≤ 101 * eps53 :=
      mul_le_mul_of_nonneg_right (by linarith) (le_of_lt heps0)
    linarith
  have herr0 : 0 ≤ (n : ℚ) * w.val * eps53 :=
    mul_nonneg hprod0 (le_of_lt heps0)
  refine ⟨by linarith [hm.1], by linarith [hm.2], ?_, ?_⟩
  · have hlow : (n : ℚ) * wq - 300 * eps53 ≤ (dmul (dofInt n) w).val := by
      linarith [hm.1]
    linarith
  · have hup : (dmul (dofInt n) w).val ≤ (n : ℚ) * wq + 300 * eps53 := by
      linarith [hm.2]
    linarith

set_option maxHeartbeats 1000000 in
/-- The double value of the weighted overall sum is within `1500·2^-53`
of the exact rational `(10C + 4X + 3S + 3K) / 20`. -/
theorem overallVal_err (c x s k : ℤ)
    (hc0 : 0 ≤ c) (hc1 : c ≤ 100) (hx0 : 0 ≤ x) (hx1 : x ≤ 100)
    (hs0 : 0 ≤ s) (hs1 : s ≤ 100) (hk0 : 0 ≤ k) (hk1 : k ≤ 100) :
    |(overallDy c x s k).val - ((10 * c + 4 * x + 3 * s + 3 * k : ℤ) : ℚ) / 20| ≤
      1500 * eps53 := by
  have heps0 : 0 < eps53 := eps53_pos
  have hepsS : eps53 ≤ 1 / 1000000 := by rw [eps53]; norm_num
  have h05 := abs_le.mp (divRnd_err 1 2 (by norm_num))
  have h02 := abs_le.mp (divRnd_err 1 5 (by norm_num))
  have h015 := abs_le.mp (divRnd_err 3 20 (by norm_num))
  push_cast at h05 h02 h015
  rw [show |(1 : ℚ) / 2| = 1 / 2 from abs_of_pos (by norm_num)] at h05
  rw [show |(1 : ℚ) / 5| = 1 / 5 from abs_of_pos (by norm_num)] at h02
  rw [show |(3 : ℚ) / 20| = 3 / 20 from abs_of_pos (by norm_num)] at h015
  have h05d : dbl05 = divRnd 1 2 := rfl
  have h02d : dbl02 = divRnd 1 5 := rfl
  have h015d : dbl015 = divRnd 3 20 := rfl
  rw [← h05d] at h05
  rw [← h02d] at h02
  rw [← h015d] at h015
  have hw05l : (1 : ℚ) / 2 - eps53 ≤ dbl05.val := by linarith [h05.1, heps0]
  have hw05u : dbl05.val ≤ (1 : ℚ) / 2 + eps53 := by linarith [h05.2, heps0]
  have hw02l : (1 : ℚ) / 5 - eps53 ≤ dbl02.val := by linarith [h02.1, heps0]
  have hw02u : dbl02.val ≤ (1 : ℚ) / 5 + eps53 := by linarith [h02.2, heps0]
  have hw015l : (3 : ℚ) / 20 - eps53 ≤ dbl015.val := by linarith [h015.1, heps0]
  have hw015u : dbl015.val ≤ (3 : ℚ) / 20 + eps53 := by linarith [h015.2, heps0]
  have ht1 := mulTerm_err c dbl05 (1 / 2) 50 hc0 hc1 hw05l hw05u
    (by linarith) (by norm_num) (by norm_num) (by norm_num)
  have ht2 := mulTerm_err x dbl02 (1 / 5) 20 hx0 hx1 hw02l hw02u
    (by linarith) (by norm_num) (by norm_num) (by norm_num)
  have ht3 := mulTerm_err s dbl015 (3 / 20) 15 hs0 hs1 hw015l hw015u
    (by linarith) (by norm_num) (by norm_num) (by norm_num)
  have ht4 := mulTerm_err k dbl015 (3 / 20) 15 hk0 hk1 hw015l hw015u
    (by linarith) (by norm_num) (by norm_num) (by norm_num)
  obtain ⟨ht1l, ht1u, ht1a, ht1b⟩ := ht1
  obtain ⟨ht2l, ht2u, ht2a, ht2b⟩ := ht2
  obtain ⟨ht3l, ht3u, ht3a, ht3b⟩ := ht3
  obtain ⟨ht4l, ht4u, ht4a, ht4b⟩ := ht4
  have ha1 := abs_le.mp (dadd_err (dmul (dofInt c) dbl05) (dmul (dofInt x) dbl02))
  have habs1 : |(dmul (dofInt c) dbl05).val + (dmul (dofInt x) dbl02).val| ≤ 73 :=
    abs_le.mpr ⟨by linarith, by linarith⟩
  have habs1e : |(dmul (dofInt c) dbl05).val + (dmul (dofInt x) dbl02).val| * eps53 ≤
      73 * eps53 := mul_le_mul_of_nonneg_right habs1 (le_of_lt heps0)
  have habs1e0 : 0 ≤ |(dmul (dofInt c) dbl05).val + (dmul (dofInt x) dbl02).val| * eps53 :=
    mul_nonneg (abs_nonneg _) (le_of_lt heps0)
  set s1 := dadd (dmul (dofInt c) dbl05) (dmul (dofInt x) dbl02) with hs1def
  have hC0 : (0 : ℚ) ≤ (c : ℚ) := by exact_mod_cast hc0
  have hC1 : (c : ℚ) ≤ 100 := by exact_mod_cast hc1
  have hX0 : (0 : ℚ) ≤ (x : ℚ) := by exact_mod_cast hx0
  have hX1 : (x : ℚ) ≤ 100 := by exact_mod_cast hx1
  have hS0 : (0 : ℚ) ≤ (s : ℚ) := by exact_mod_cast hs0
  have hS1 : (s : ℚ) ≤ 100 := by exact_mod_cast hs1
  have hK0 : (0 : ℚ) ≤ (k : ℚ) := by exact_mod_cast hk0
  have hK1 : (k : ℚ) ≤ 100 := by exact_mod_cast hk1
  have hs1l : (c : ℚ) * (1 / 2) + (x : ℚ) * (1 / 5) - 673 * eps53 ≤ s1.val := by
    linarith [ha1.1]
  have hs1u : s1.val ≤ (c : ℚ) * (1 / 2) + (x : ℚ) * (1 / 5) + 673 * eps53 := by
    linarith [ha1.2]
  have hs1a : -3 ≤ s1.val := by
    linarith [ha1.1, habs1e, habs1e0, ht1a, ht2a, hepsS]
  have hs1b : s1.val ≤ 73 := by
    linarith [ha1.2, habs1e, habs1e0, ht1b, ht2b, hepsS]
  have ha2 := abs_le.mp (dadd_err s1 (dmul (dofInt s) dbl015))
  have habs2 : |s1.val + (dmul (dofInt s) dbl015).val| ≤ 90 :=
    abs_le.mpr ⟨by linarith, by linarith⟩
  have habs2e : |s1.val + (dmul (dofInt s) dbl015).val| * eps53 ≤ 90 * eps53 :=
    mul_le_mul_of_nonneg_right habs2 (le_of_lt heps0)
  have habs2e0 : 0 ≤ |s1.val + (dmul (dofInt s) dbl015).val| * eps53 :=
    mul_nonneg (abs_nonneg _) (le_of_lt heps0)
  set s2 := dadd s1 (dmul (dofInt s) dbl015) with hs2def
  have hs2l : (c : ℚ) * (1 / 2) + (x : ℚ) * (1 / 5) + (s : ℚ) * (3 / 20) -
      1063 * eps53 ≤ s2.val := by
    linarith [ha2.1]
  have hs2u : s2.val ≤ (c : ℚ) * (1 / 2) + (x : ℚ) * (1 / 5) + (s : ℚ) * (3 / 20) +
      1063 * eps53 := by
    linarith [ha2.2]
  have hs2a : -5 ≤ s2.val := by
    linarith [ha2.1, habs2e, habs2e0, hs1a, ht3a, hepsS]
  have hs2b : s2.val ≤ 90 := by
    linarith [ha2.2, habs2e, habs2e0, hs1b, ht3b, hepsS]
  have ha3 := abs_le.mp (dadd_err s2 (dmul (dofInt k) dbl015))
  have habs3 : |s2.val + (dmul (dofInt k) dbl015).val| ≤ 106 :=
    abs_le.mpr ⟨by linarith, by linarith⟩
  have habs3e : |s2.val + (dmul (dofInt k) dbl015).val| * eps53 ≤ 106 * eps53 :=
    mul_le_mul_of_nonneg_right habs3 (le_of_lt heps0)
  have habs3e0 : 0 ≤ |s2.val + (dmul (dofInt k) dbl015).val| * eps53 :=
    mul_nonneg (abs_nonneg _) (le_of_lt heps0)
  have hfin : overallDy c x s k = dadd s2 (dmul (dofInt k) dbl015) := rfl
  rw [hfin]
  have hT : ((10 * c + 4 * x + 3 * s + 3 * k : ℤ) : ℚ) / 20 =
      (c : ℚ) * (1 / 2) + (x : ℚ) * (1 / 5) + (s : ℚ) * (3 / 20) +
        (k : ℚ) * (3 / 20) := by
    push_cast
    ring
  rw [hT]
  rw [abs_le]
  constructor
  · linarith [ha3.1]
  · linarith [ha3.2]

/-- **C6, counterexample.**  With dimension scores (0, 0, 1, 9) the
exact weighted sum is `0.15 + 1.35 = 1.5`, whose nearest-even rounding
is 2; the doubles `1*0.15 + 9*0.15` sum to slightly below 1.5 and the
program returns 1. -/
theorem c6_counterexample :
    computeOverallScore 0 0 1 9 = 1 ∧
    roundNEQ (10 * 0 + 4 * 0 + 3 * 1 + 3 * 9) 20 = 2 ∧
    ((1 : ℤ) ≠ 2) := ⟨by decide, by decide, by decide⟩

/-- **C6, amended.**  The grade thresholds are inclusive at the lower
bound exactly as claimed (90→A, 80→B, 70→C, 60→D, below 60→F), and for
all dimension scores in [0,100] the overall score is within 1 of the
claimed `round(0.50·C + 0.20·X + 0.15·S + 0.15·K)` — but, as the
counterexample shows, not always equal to it. -/
theorem c6_amended :
    (∀ n : ℤ,
      (90 ≤ n → (assignGrade n).1 = "A") ∧
      (80 ≤ n → n < 90 → (assignGrade n).1 = "B") ∧
      (70 ≤ n → n < 80 → (assignGrade n).1 = "C") ∧
      (60 ≤ n → n < 70 → (assignGrade n).1 = "D") ∧
      (n < 60 → (assignGrade n).1 = "F")) ∧
    (∀ c x s k : ℤ, 0 ≤ c → c ≤ 100 → 0 ≤ x → x ≤ 100 →
      0 ≤ s → s ≤ 100 → 0 ≤ k → k ≤ 100 →
      |computeOverallScore c x s k - roundNEQ (10 * c + 4 * x + 3 * s + 3 * k) 20| ≤ 1) := by
  constructor
  · intro n
    refine ⟨fun h => ?_, fun h h9 => ?_, fun h h8 => ?_, fun h h7 => ?_, fun h => ?_⟩
    · simp only [assignGrade, GRADE_THRESHOLDS, assignGradeGo]
      rw [if_pos (by omega : (90 : ℤ) ≤ n)]
    · simp only [assignGrade, GRADE_THRESHOLDS, assignGradeGo]
      rw [if_neg (by omega : ¬ (90 : ℤ) ≤ n), if_pos (by omega : (80 : ℤ) ≤ n)]
    · simp only [assignGrade, GRADE_THRESHOLDS, assignGradeGo]
      rw [if_neg (by omega : ¬ (90 : ℤ) ≤ n), if_neg (by omega : ¬ (80 : ℤ) ≤ n),
        if_pos (by omega : (70 : ℤ) ≤ n)]
    · simp only [assignGrade, GRADE_THRESHOLDS, assignGradeGo]
      rw [if_neg (by omega : ¬ (90 : ℤ) ≤ n), if_neg (by omega : ¬ (80 : ℤ) ≤ n),
        if_neg (by omega : ¬ (70 : ℤ) ≤ n), if_pos (by omega : (60 : ℤ) ≤ n)]
    · simp only [assignGrade, GRADE_THRESHOLDS, assignGradeGo]
      rw [if_neg (by omega : ¬ (90 : ℤ) ≤ n), if_neg (by omega : ¬ (80 : ℤ) ≤ n),
        if_neg (by omega : ¬ (70 : ℤ) ≤ n), if_neg (by omega : ¬ (60 : ℤ) ≤ n)]
      split_ifs <;> rfl
  · intro c x s k hc0 hc1 hx0 hx1 hs0 hs1 hk0 hk1
    have hval := abs_le.mp (overallVal_err c x s k hc0 hc1 hx0 hx1 hs0 hs1 hk0 hk1)
    have hrnd := abs_le.mp (droundInt_spec (overallDy c x s k))
    have hneq := abs_le.mp (roundNEQ_spec (10 * c + 4 * x + 3 * s + 3 * k) 20 (by norm_num))
    have h20 : (((20 : ℤ)) : ℚ) = 20 := by norm_num
    rw [h20] at hneq
    have hepsS : eps53 ≤ 1 / 1000000 := by rw [eps53]; norm_num
    have heps0 : 0 < eps53 := eps53_pos
    have hco : computeOverallScore c x s k = droundInt (overallDy c x s k) := rfl
    have hdl : (-2 : ℚ) < ((computeOverallScore c x s k : ℤ) : ℚ) -
        ((roundNEQ (10 * c + 4 * x + 3 * s + 3 * k) 20 : ℤ) : ℚ) := by
      rw [hco]
      linarith [hval.1, hrnd.1, hneq.2]
    have hdu : ((computeOverallScore c x s k : ℤ) : ℚ) -
        ((roundNEQ (10 * c + 4 * x + 3 * s + 3 * k) 20 : ℤ) : ℚ) < 2 := by
      rw [hco]
      linarith [hval.2, hrnd.2, hneq.1]
    have hdl2 : (-2 : ℤ) < computeOverallScore c x s k -
        roundNEQ (10 * c + 4 * x + 3 * s + 3 * k) 20 := by
      exact_mod_cast hdl
    have hdu2 : computeOverallScore c x s k -
        roundNEQ (10 * c + 4 * x + 3 * s + 3 * k) 20 < (2 : ℤ) := by
      exact_mod_cast hdu
    rw [abs_le]
    omega

/-- Witness for C6 amended: grade boundaries at 90 and 89, and the
score-proximity bound at the counterexample input. -/
theorem c6_amended_witness :
    (assignGrade 90).1 = "A" ∧ (assignGrade 89).1 = "B" ∧
    |computeOverallScore 0 0 1 9 - roundNEQ (10 * 0 + 4 * 0 + 3 * 1 + 3 * 9) 20| ≤ 1 :=
  ⟨(c6_amended.1 90).1 (by norm_num),
   (c6_amended.1 89).2.1 (by norm_num) (by norm_num),
   c6_amended.2 0 0 1 9 (by norm_num) (by norm_num) (by norm_num) (by norm_num)
     (by norm_num) (by norm_num) (by norm_num) (by norm_num)⟩

/-!
## Bounds for C8
-/

theorem funcScore_bounds (m : FunctionMetrics) :
    0 ≤ funcScore m ∧ funcScore m ≤ 100 := by
  unfold funcScore
  dsimp only
  constructor
  · exact le_max_left _ _
  · split_ifs <;> omega

theorem listSum_bounds (l : List ℤ) (h : ∀ z ∈ l, 0 ≤ z ∧ z ≤ 100) :
    0 ≤ l.sum ∧ l.sum ≤ 100 * (l.length : ℤ) := by
  induction l with
  | nil => simp
  | cons a tl ih =>
    have ha := h a (by simp)
    have htl := ih (fun z hz => h z (by simp [hz]))
    simp only [List.sum_cons, List.length_cons]
    push_cast
    constructor
    · linarith [htl.1, ha.1]
    · linarith [htl.2, ha.2]

/-- The truncated double average `int(sum / len)` of values summing into
`[0, 100·len]` stays in `[0, 100]`. -/
theorem avgTrunc_bounds (sm l : ℤ) (hl : 0 < l) (h0 : 0 ≤ sm) (h1 : sm ≤ 100 * l) :
    0 ≤ dtruncInt (divRnd sm l) ∧ dtruncInt (divRnd sm l) ≤ 100 := by
  have hlq : (0 : ℚ) < (l : ℚ) := by exact_mod_cast hl
  have hq0 : 0 ≤ (sm : ℚ) / (l : ℚ) := by
    apply div_nonneg
    · exact_mod_cast h0
    · exact le_of_lt hlq
  have hq1 : (sm : ℚ) / (l : ℚ) ≤ 100 := by
    rw [div_le_iff hlq]
    exact_mod_cast h1
  have herr := abs_le.mp (divRnd_err sm l hl)
  rw [abs_of_nonneg hq0] at herr
  have heps0 : 0 < eps53 := eps53_pos
  have hepsS : eps53 ≤ 1 / 1000000 := by rw [eps53]; norm_num
  have hqe : (sm : ℚ) / (l : ℚ) * eps53 ≤ 100 * eps53 :=
    mul_le_mul_of_nonneg_right hq1 (le_of_lt heps0)
  have hqe0 : 0 ≤ (sm : ℚ) / (l : ℚ) * eps53 :=
    mul_nonneg hq0 (le_of_lt heps0)
  have hv0 : 0 ≤ (divRnd sm l).val := by nlinarith [herr.1]
  have hv1 : (divRnd sm l).val < 101 := by nlinarith [herr.2]
  have hts := dtruncInt_spec (divRnd sm l) hv0
  constructor
  · by_contra hc
    push_neg at hc
    have hc1 : ((dtruncInt (divRnd sm l) + 1 : ℤ) : ℚ) ≤ 0 := by
      exact_mod_cast (by omega : (dtruncInt (divRnd sm l) + 1 : ℤ) ≤ 0)
    push_cast at hc1
    linarith [hts.2]
  · by_contra hc
    push_neg at hc
    have hc1 : (101 : ℚ) ≤ ((dtruncInt (divRnd sm l) : ℤ) : ℚ) := by
      exact_mod_cast (by omega : (101 : ℤ) ≤ dtruncInt (divRnd sm l))
    linarith [hts.1]

theorem scoreFromMetrics_bounds (ms : List FunctionMetrics) :
    0 ≤ scoreFromMetrics ms ∧ scoreFromMetrics ms ≤ 100 := by
  cases ms with
  | nil =>
    constructor <;> norm_num [scoreFromMetrics]
  | cons m tl =>
    have hs : scoreFromMetrics (m :: tl) =
        dtruncInt (divRnd ((m :: tl).map funcScore).sum
          ((((m :: tl).map funcScore).length : ℕ) : ℤ)) := rfl
    rw [hs]
    have hb := listSum_bounds ((m :: tl).map funcScore) (by
      intro z hz
      rw [List.mem_map] at hz
      obtain ⟨f, _, hf⟩ := hz
      rw [← hf]
      exact funcScore_bounds f)
    apply avgTrunc_bounds
    · simp
    · exact hb.1
    · exact hb.2

theorem violationWeight_nonneg (t : String) : 0 ≤ violationWeight t := by
  unfold violationWeight
  split <;> norm_num

theorem styleSum_nonneg (l : List (String × List String)) :
    0 ≤ (l.map fun p => ((p.2.length : ℤ) * violationWeight p.1)).sum := by
  induction l with
  | nil => simp
  | cons a tl ih =>
    simp only [List.map_cons, List.sum_cons]
    have ha : 0 ≤ ((a.2.length : ℤ)) * violationWeight a.1 :=
      mul_nonneg (by exact_mod_cast Nat.zero_le _) (violationWeight_nonneg a.1)
    linarith

theorem computeStyleScore_bounds (l : List (String × List String)) :
    0 ≤ computeStyleScore l ∧ computeStyleScore l ≤ 100 := by
  unfold computeStyleScore
  constructor
  · exact le_max_left _ _
  · apply max_le
    · norm_num
    · linarith [styleSum_nonneg l]

theorem severityDeduction_nonneg (t : String) : 0 ≤ severityDeduction t := by
  unfold severityDeduction
  split <;> norm_num

theorem secSum_nonneg (l : List SecurityFinding) :
    0 ≤ (l.map fun f => severityDeduction f.severity).sum := by
  induction l with
  | nil => simp
  | cons a tl ih =>
    simp only [List.map_cons, List.sum_cons]
    linarith [severityDeduction_nonneg a.severity]

theorem computeSecurityScore_bounds (l : List SecurityFinding) :
    0 ≤ computeSecurityScore l ∧ computeSecurityScore l ≤ 100 := by
  unfold computeSecurityScore
  constructor
  · exact le_max_left _ _
  · apply max_le
    · norm_num
    · linarith [secSum_nonneg l]

/-- **C8.**  Every score the system produces is an integer in [0,100]:
the correctness score (under the data-model invariant that test-case
weights are positive), the complexity score (including the parse-failure
0 and the no-function neutral 50), the style score, the security score,
and the overall score for any dimension scores in [0,100]. -/
theorem c8_scores_bounded :
    (∀ sandbox problem r, runCorrectnessEvaluation sandbox problem = .ok r →
      (∀ p ∈ allTestCasesOf problem, 0 < p.1.weight) →
      0 ≤ r.score ∧ r.score ≤ 100) ∧
    (∀ sub, 0 ≤ (runComplexityEvaluation sub).score ∧
      (runComplexityEvaluation sub).score ≤ 100) ∧
    (∀ sub, 0 ≤ (runStyleEvaluation sub).score ∧
      (runStyleEvaluation sub).score ≤ 100) ∧
    (∀ sub, 0 ≤ (runSecurityEvaluation sub).score ∧
      (runSecurityEvaluation sub).score ≤ 100) ∧
    (∀ c x s k : ℤ, 0 ≤ c → c ≤ 100 → 0 ≤ x → x ≤ 100 →
      0 ≤ s → s ≤ 100 → 0 ≤ k → k ≤ 100 →
      0 ≤ computeOverallScore c x s k ∧ computeOverallScore c x s k ≤ 100) := by
  refine ⟨?_, ?_, ?_, ?_, ?_⟩
  · intro sandbox problem r hrun hw
    unfold runCorrectnessEvaluation at hrun
    cases hev : evalLoop sandbox 0 (allTestCasesOf problem) with
    | error e =>
      rw [hev] at hrun
      dsimp only at hrun
      exact Except.noConfusion hrun
    | ok triple =>
      obtain ⟨rs, tw, ew⟩ := triple
      rw [hev] at hrun
      dsimp only at hrun
      cases hrun
      have hspec := evalLoop_spec sandbox (allTestCasesOf problem) 0 rs tw ew hev
      have hb := earnedSum_bounds sandbox (allTestCasesOf problem) 0
        (fun p hp => le_of_lt (hw p hp))
      have hew0 : 0 ≤ ew := by rw [hspec.2.1]; exact hb.1
      have hewt : ew ≤ tw := by
        rw [hspec.2.1, hspec.1]
        exact hb.2
      exact weightedScore_bounds ew tw hew0 hewt
  · intro sub
    obtain ⟨raw, tr⟩ := sub
    cases tr with
    | error e =>
      have hz : (runComplexityEvaluation ⟨raw, .error e⟩).score = 0 := rfl
      rw [hz]
      exact ⟨le_refl 0, by norm_num⟩
    | ok tree =>
      have hs : (runComplexityEvaluation ⟨raw, .ok tree⟩).score =
          scoreFromMetrics ((collectFunctions tree).map metricsOf) := rfl
      rw [hs]
      exact scoreFromMetrics_bounds _
  · intro sub
    obtain ⟨raw, tr⟩ := sub
    cases tr with
    | error e =>
      have hz : (runStyleEvaluation ⟨raw, .error e⟩).score = 0 := rfl
      rw [hz]
      exact ⟨le_refl 0, by norm_num⟩
    | ok tree =>
      have hs : (runStyleEvaluation ⟨raw, .ok tree⟩).score =
          computeStyleScore (([("namingConvention", checkNaming tree),
            ("missingDocstring", checkDocstrings tree),
            ("magicNumber", checkMagicNumbers tree),
            ("lineTooLong", checkLineLengths (splitLinesPy raw)),
            ("emptyExcept", checkEmptyAndBareExcept tree),
            ("mutableDefault", checkMutableDefaults tree),
            ("unusedImport", checkUnusedImports tree raw)]).filter
              fun p => !p.2.isEmpty) := rfl
      rw [hs]
      exact computeStyleScore_bounds _
  · intro sub
    obtain ⟨raw, tr⟩ := sub
    cases tr with
    | error e =>
      have hz : (runSecurityEvaluation ⟨raw, .error e⟩).score = 100 := rfl
      rw [hz]
      exact ⟨by norm_num, le_refl 100⟩
    | ok tree =>
      have hs : (runSecurityEvaluation ⟨raw, .ok tree⟩).score =
          computeSecurityScore (checkDangerousCalls tree ++
            checkAssertForSecurity tree ++ checkHardcodedSecrets raw ++
            checkSqlInjection raw) := rfl
      rw [hs]
      exact computeSecurityScore_bounds _
  · intro c x s k hc0 hc1 hx0 hx1 hs0 hs1 hk0 hk1
    have hval := abs_le.mp (overallVal_err c x s k hc0 hc1 hx0 hx1 hs0 hs1 hk0 hk1)
    have hrnd := abs_le.mp (droundInt_spec (overallDy c x s k))
    have hepsS : eps53 ≤ 1 / 1000000 := by rw [eps53]; norm_num
    have heps0 : 0 < eps53 := eps53_pos
    have hT0 : (0 : ℚ) ≤ ((10 * c + 4 * x + 3 * s + 3 * k : ℤ) : ℚ) / 20 := by
      apply div_nonneg
      · exact_mod_cast (by omega : (0 : ℤ) ≤ 10 * c + 4 * x + 3 * s + 3 * k)
      · norm_num
    have hT1 : ((10 * c + 4 * x + 3 * s + 3 * k : ℤ) : ℚ) / 20 ≤ 100 := by
      rw [div_le_iff (by norm_num : (0 : ℚ) < 20)]
      exact_mod_cast (by omega : (10 * c + 4 * x + 3 * s + 3 * k : ℤ) ≤ 2000)
    have hco : computeOverallScore c x s k = droundInt (overallDy c x s k) := rfl
    constructor
    · by_contra hc
      push_neg at hc
      have hc1q : ((computeOverallScore c x s k : ℤ) : ℚ) ≤ -1 := by
        exact_mod_cast (by omega : (computeOverallScore c x s k : ℤ) ≤ -1)
      rw [hco] at hc1q
      linarith [hrnd.1, hval.1]
    · by_contra hc
      push_neg at hc
      have hc1q : (101 : ℚ) ≤ ((computeOverallScore c x s k : ℤ) : ℚ) := by
        exact_mod_cast (by omega : (101 : ℤ) ≤ computeOverallScore c x s k)
      rw [hco] at hc1q
      linarith [hrnd.2, hval.2]

/-- Witness for C8: each bounded part applied at a concrete input — an
empty problem for correctness, a syntax-error submission for the three
static evaluators, and all-100 dimension scores for the overall score. -/
theorem c8_scores_bounded_witness :
    (0 ≤ ({ score := 0, passed := 0, total := 0, testResults := [] } :
        CorrectnessResult).score ∧
      ({ score := 0, passed := 0, total := 0, testResults := [] } :
        CorrectnessResult).score ≤ 100) ∧
    (0 ≤ (runComplexityEvaluation ⟨"", .error "e"⟩).score ∧
      (runComplexityEvaluation ⟨"", .error "e"⟩).score ≤ 100) ∧
    (0 ≤ (runStyleEvaluation ⟨"", .error "e"⟩).score ∧
      (runStyleEvaluation ⟨"", .error "e"⟩).score ≤ 100) ∧
    (0 ≤ (runSecurityEvaluation ⟨"", .error "e"⟩).score ∧
      (runSecurityEvaluation ⟨"", .error "e"⟩).score ≤ 100) ∧
    (0 ≤ computeOverallScore 100 100 100 100 ∧
      computeOverallScore 100 100 100 100 ≤ 100) :=
  ⟨c8_scores_bounded.1 (fun _ => .timeout) ⟨"", [], []⟩ _ rfl
      (by intro p hp; simp [allTestCasesOf] at hp),
   c8_scores_bounded.2.1 ⟨"", .error "e"⟩,
   c8_scores_bounded.2.2.1 ⟨"", .error "e"⟩,
   c8_scores_bounded.2.2.2.1 ⟨"", .error "e"⟩,
   c8_scores_bounded.2.2.2.2 100 100 100 100 (by norm_num) (by norm_num)
     (by norm_num) (by norm_num) (by norm_num) (by norm_num) (by norm_num)
     (by norm_num)⟩
